import Mathlib

/-!
# Portfolio analytics event pipeline

A shallow embedding of the publish path (`src/producer/main.go`), the subscribe
path (`src/consumer/main.go`), the event schema (`src/shared/types.go`) and the
SCRAM client wrapper (`src/shared/kafka.go`).

Effects are made explicit: a handler returns its HTTP response together with the
list of library calls it made and the new state of the broker; the consumer
returns the list of inserts it attempted and the new state of the database.
The libraries the code calls (the JSON codec, the broker client, the database
driver) are parameters of the handlers; a concrete model of the JSON codec for
`AnalyticsEvent` is given separately and used wherever a concrete run is needed.
-/

namespace PortfolioAnalytics

/-! ## Data model (`src/shared/types.go`) -/

/-- One byte of a Go string. -/
abbrev Byte := Fin 256

/-- Go strings are byte sequences (not necessarily valid UTF-8). -/
abbrev GoString := List Byte

/-- The bytes of an ASCII literal. -/
def bytes (s : String) : GoString := s.data.map (fun c => Fin.ofNat c.toNat)

/-- A value of `time.Time`, represented by what `Time.Format` prints: the
calendar date and clock reading in the value's own zone, the nanosecond, and
the zone offset in seconds east of UTC. -/
structure Time where
  year : Int
  month : Nat
  day : Nat
  hour : Nat
  minute : Nat
  second : Nat
  nsec : Nat
  offset : Int
deriving DecidableEq, Repr

/-- The zero value of `time.Time`: January 1, year 1, 00:00:00 UTC. -/
def Time.zero : Time :=
  { year := 1, month := 1, day := 1, hour := 0, minute := 0, second := 0, nsec := 0, offset := 0 }

/-- The struct `AnalyticsEvent` of `shared/types.go`. -/
structure AnalyticsEvent where
  EventType : GoString
  Page : GoString
  Timestamp : Time
  SessionID : GoString
  UserAgent : GoString
  ScreenWidth : Int
  ScreenHeight : Int
deriving DecidableEq, Repr

/-- The zero value of the struct, which `var event AnalyticsEvent` declares. -/
def AnalyticsEvent.zero : AnalyticsEvent :=
  { EventType := [], Page := [], Timestamp := Time.zero, SessionID := [], UserAgent := [],
    ScreenWidth := 0, ScreenHeight := 0 }

/-! ## JSON documents -/

/-- A JSON number literal: an integer literal with its value, or a literal with
a fraction or an exponent. -/
inductive JNumber where
  | integer (n : Int)
  | nonInteger
deriving DecidableEq, Repr

/-- A JSON document. Strings and member names carry their unescaped content. -/
inductive JSON where
  | null
  | bool (b : Bool)
  | number (n : JNumber)
  | string (s : GoString)
  | array (elems : List JSON)
  | object (members : List (GoString × JSON))
deriving Repr

/-- A byte payload as a JSON reader sees it: the JSON document that the bytes
spell (for a request body, the first value of the stream), or `none` when they
spell none. -/
abbrev Payload := Option JSON

/-! ## Library interfaces -/

/-- The three calls into `encoding/json` that the services make, over a body
type `β` and a wire type `ω`. -/
structure JSONCodec (β ω : Type) where
  /-- The call `json.NewDecoder(r.Body).Decode(&event)` on a zero-valued event. -/
  Decode : β → Except String AnalyticsEvent
  /-- The call `json.Marshal(event)`. -/
  Marshal : AnalyticsEvent → Except String ω
  /-- The call `json.Unmarshal(msg.Value, &event)` on a zero-valued event. -/
  Unmarshal : ω → Except String AnalyticsEvent

/-- A `sarama.ProducerMessage` as the handler builds it. -/
structure ProducerMessage (ω : Type) where
  Topic : String
  Value : ω

/-- A `sarama.SyncProducer` with state `σ`: `SendMessage` returns the partition
and offset, or an error. -/
structure SyncProducer (σ ω : Type) where
  SendMessage : σ → ProducerMessage ω → σ × Except String (Int × Int)

/-! ## Publisher (`src/producer/main.go`) -/

/-- The parts of `*http.Request` that `handleAnalytics` reads. `UserAgent` is
the value of `r.Header.Get("User-Agent")`, empty when the header is absent. -/
structure Request (β : Type) where
  Method : String
  UserAgent : GoString
  Body : β

/-- What is written to the `http.ResponseWriter` after the headers: nothing,
the plain text that `http.Error` writes for a message, or a JSON document. -/
inductive ResponseBody where
  | empty
  | text (msg : String)
  | json (v : JSON)

/-- The status code and body of an HTTP response. -/
structure Response where
  status : Nat
  body : ResponseBody

/-- A library call made by `handleAnalytics`. -/
inductive Call (ω : Type) where
  | Decode
  | Marshal (event : AnalyticsEvent)
  | SendMessage (message : ProducerMessage ω)

/-- The result of one run of `handleAnalytics`. -/
structure Outcome (σ ω : Type) where
  response : Response
  calls : List (Call ω)
  broker : σ

/-- The messages passed to `SendMessage`, in call order. -/
def sends {ω : Type} : List (Call ω) → List (ProducerMessage ω)
  | [] => []
  | Call.SendMessage m :: cs => m :: sends cs
  | _ :: cs => sends cs

/-- The events passed to `json.Marshal`, in call order. -/
def marshalled {ω : Type} : List (Call ω) → List AnalyticsEvent
  | [] => []
  | Call.Marshal e :: cs => e :: marshalled cs
  | _ :: cs => marshalled cs

/-- The statement `if event.UserAgent == "" { event.UserAgent = r.Header.Get("User-Agent") }`. -/
def fillUserAgent (event : AnalyticsEvent) (header : GoString) : AnalyticsEvent :=
  if event.UserAgent = [] then { event with UserAgent := header } else event

/-- The success body `{"status":"success","message":"Event queued","partition":p,"offset":o}`,
with the members in the sorted order in which a Go map is encoded. -/
def queuedBody (partition offset : Int) : JSON :=
  JSON.object
    [ (bytes "message", JSON.string (bytes "Event queued")),
      (bytes "offset", JSON.number (JNumber.integer offset)),
      (bytes "partition", JSON.number (JNumber.integer partition)),
      (bytes "status", JSON.string (bytes "success")) ]

/-- The handler `handleAnalytics`. -/
def handleAnalytics {β ω σ : Type} (J : JSONCodec β ω) (P : SyncProducer σ ω)
    (s : σ) (r : Request β) : Outcome σ ω :=
  if r.Method = "OPTIONS" then
    { response := { status := 200, body := ResponseBody.empty }, calls := [], broker := s }
  else if r.Method ≠ "POST" then
    { response := { status := 405, body := ResponseBody.text "Method not allowed" },
      calls := [], broker := s }
  else
    match J.Decode r.Body with
    | Except.error _ =>
      { response := { status := 400, body := ResponseBody.text "Invalid JSON" },
        calls := [Call.Decode], broker := s }
    | Except.ok decoded =>
      let event := fillUserAgent decoded r.UserAgent
      match J.Marshal event with
      | Except.error _ =>
        { response := { status := 500, body := ResponseBody.text "Internal server error" },
          calls := [Call.Decode, Call.Marshal event], broker := s }
      | Except.ok eventBytes =>
        let message : ProducerMessage ω :=
          { Topic := "portfolio-analytics-events", Value := eventBytes }
        match P.SendMessage s message with
        | (s1, Except.error _) =>
          { response := { status := 500, body := ResponseBody.text "Failed to record event" },
            calls := [Call.Decode, Call.Marshal event, Call.SendMessage message], broker := s1 }
        | (s1, Except.ok (partition, offset)) =>
          { response := { status := 201, body := ResponseBody.json (queuedBody partition offset) },
            calls := [Call.Decode, Call.Marshal event, Call.SendMessage message], broker := s1 }

/-! ## Subscriber (`src/consumer/main.go`) -/

/-- The arguments of the `INSERT` statement, in the order of its placeholders
`$1` to `$7`. -/
structure InsertArgs where
  event_type : GoString
  page : GoString
  session_id : GoString
  user_agent : GoString
  screen_width : Int
  screen_height : Int
  timestamp : Time
deriving DecidableEq, Repr

/-- The argument list `event.EventType, event.Page, event.SessionID, event.UserAgent,
event.ScreenWidth, event.ScreenHeight, event.Timestamp` of the `QueryRow` call. -/
def insertArgs (event : AnalyticsEvent) : InsertArgs :=
  { event_type := event.EventType, page := event.Page, session_id := event.SessionID,
    user_agent := event.UserAgent, screen_width := event.ScreenWidth,
    screen_height := event.ScreenHeight, timestamp := event.Timestamp }

/-- The database handle with state `δ`: the `INSERT ... RETURNING id` query
returns the generated id, or an error. -/
structure Database (δ : Type) where
  QueryRow : δ → InsertArgs → δ × Except String Int

/-- A `sarama.ConsumerMessage`: the payload and its offset. -/
structure ConsumerMessage (ω : Type) where
  Value : ω
  Offset : Int

/-- What one run of the consumer leaves behind: the database state and the
inserts attempted, in order. -/
structure Sink (δ : Type) where
  db : δ
  inserts : List InsertArgs

/-- The function `handleKafkaMessage`: unmarshal, and on success run the insert;
both failures are logged and the function returns. -/
def handleKafkaMessage {β ω δ : Type} (J : JSONCodec β ω) (D : Database δ)
    (k : Sink δ) (msg : ConsumerMessage ω) : Sink δ :=
  match J.Unmarshal msg.Value with
  | Except.error _ => k
  | Except.ok event =>
    match D.QueryRow k.db (insertArgs event) with
    | (d1, Except.error _) => { db := d1, inserts := k.inserts ++ [insertArgs event] }
    | (d1, Except.ok _) => { db := d1, inserts := k.inserts ++ [insertArgs event] }

/-- What the `select` of the consumption loop receives. -/
inductive Arrival (ω : Type) where
  | message (msg : ConsumerMessage ω)
  | error (err : String)
  | signal

/-- The states of the consumption loop once the subscriber listens. -/
inductive LoopState where
  | Listening
  | Stopped
deriving DecidableEq, Repr

/-- The state of the running subscriber. -/
structure Subscriber (δ : Type) where
  state : LoopState
  sink : Sink δ

/-- One iteration of the `for { select { ... } }` loop of `main` on the arrival
the `select` received. -/
def loopStep {β ω δ : Type} (J : JSONCodec β ω) (D : Database δ)
    (k : Sink δ) : Arrival ω → Subscriber δ
  | Arrival.message msg => { state := LoopState.Listening, sink := handleKafkaMessage J D k msg }
  | Arrival.error _ => { state := LoopState.Listening, sink := k }
  | Arrival.signal => { state := LoopState.Stopped, sink := k }

/-- The consumption loop of `main` on a finite sequence of arrivals: it ends
`Stopped` at the first signal and is still `Listening` when the arrivals run
out. -/
def consumeLoop {β ω δ : Type} (J : JSONCodec β ω) (D : Database δ) :
    Sink δ → List (Arrival ω) → Subscriber δ
  | k, [] => { state := LoopState.Listening, sink := k }
  | k, a :: rest =>
    match loopStep J D k a with
    | { state := LoopState.Stopped, sink := k1 } => { state := LoopState.Stopped, sink := k1 }
    | { state := LoopState.Listening, sink := k1 } => consumeLoop J D k1 rest

/-! ## Model of `encoding/json` for `AnalyticsEvent`

The codec works on JSON documents (`Payload`); the spelling of a document as
text is not modelled. Strings are coerced to valid UTF-8 in both directions, as
`encoding/json` documents: an invalid byte becomes U+FFFD. -/

/-- The UTF-8 encoding of U+FFFD, the replacement character. -/
def replacementChar : GoString := [0xEF, 0xBF, 0xBD]

/-- The classification of a leading byte at or above 0x80, as in the table
`first` of package `unicode/utf8`: the length of the sequence and the accepted
range of the second byte; `none` for a byte that cannot start a sequence. -/
def leadByte (b : Byte) : Option (Nat × Nat × Nat) :=
  if 0xC2 ≤ b.val ∧ b.val ≤ 0xDF then some (2, 0x80, 0xBF)
  else if b.val = 0xE0 then some (3, 0xA0, 0xBF)
  else if 0xE1 ≤ b.val ∧ b.val ≤ 0xEC then some (3, 0x80, 0xBF)
  else if b.val = 0xED then some (3, 0x80, 0x9F)
  else if 0xEE ≤ b.val ∧ b.val ≤ 0xEF then some (3, 0x80, 0xBF)
  else if b.val = 0xF0 then some (4, 0x90, 0xBF)
  else if 0xF1 ≤ b.val ∧ b.val ≤ 0xF3 then some (4, 0x80, 0xBF)
  else if b.val = 0xF4 then some (4, 0x80, 0x8F)
  else none

/-- A continuation byte, 0x80 to 0xBF. -/
def isCont (b : Byte) : Bool := decide (0x80 ≤ b.val ∧ b.val ≤ 0xBF)

/-- The width that `utf8.DecodeRune` reports for the head of `s`, with 0
standing for the answer `(RuneError, 1)` given to an ill-formed head. -/
def runeLen : GoString → Nat
  | [] => 0
  | b0 :: rest =>
    if b0.val < 0x80 then 1
    else
      match leadByte b0 with
      | none => 0
      | some (size, lo, hi) =>
        match rest with
        | [] => 0
        | b1 :: rest1 =>
          if b1.val < lo ∨ hi < b1.val then 0
          else if size ≤ 2 then 2
          else
            match rest1 with
            | [] => 0
            | b2 :: rest2 =>
              if !isCont b2 then 0
              else if size ≤ 3 then 3
              else
                match rest2 with
                | [] => 0
                | b3 :: _ => if !isCont b3 then 0 else 4

/-- Coercion to valid UTF-8, with `pending` bytes of the current well-formed
sequence still to be copied. -/
def coerceFrom : Nat → GoString → GoString
  | _, [] => []
  | pending + 1, b :: rest => b :: coerceFrom pending rest
  | 0, b :: rest =>
    match runeLen (b :: rest) with
    | 0 => replacementChar ++ coerceFrom 0 rest
    | n + 1 => b :: coerceFrom n rest

/-- The coercion `encoding/json` applies to a string when it encodes or decodes
it: well-formed sequences are copied, every other byte becomes U+FFFD. -/
def toValidUTF8 (s : GoString) : GoString := coerceFrom 0 s

/-- The check of `utf8.Valid`, with `pending` bytes of the current well-formed
sequence still to be skipped. -/
def validFrom : Nat → GoString → Bool
  | _, [] => true
  | pending + 1, _ :: rest => validFrom pending rest
  | 0, b :: rest =>
    match runeLen (b :: rest) with
    | 0 => false
    | n + 1 => validFrom n rest

/-- The function `utf8.Valid`: the string is made of well-formed sequences only. -/
def validUTF8 (s : GoString) : Bool := validFrom 0 s

/-! ### `time.Time` as JSON: RFC 3339 -/

/-- The ASCII digit of `d % 10`. -/
def digit (d : Nat) : Byte := Fin.ofNat (48 + d % 10)

/-- The last `width` decimal digits of `n`: what `appendInt(b, n, width)` of
package `time` appends when `0 ≤ n < 10 ^ width`. -/
def digitsOf : Nat → Nat → GoString
  | 0, _ => []
  | width + 1, n => digitsOf width (n / 10) ++ [digit n]

/-- Removal of trailing `0` digits. -/
def trimZeros (s : GoString) : GoString :=
  (s.reverse.dropWhile (fun b => b.val = 48)).reverse

/-- The function `appendNano` for the layout `.999999999`: nothing for zero,
else a period and the nine digits without trailing zeros. -/
def appendNano (nsec : Nat) : GoString :=
  if nsec = 0 then [] else (46 : Byte) :: trimZeros (digitsOf 9 nsec)

/-- The zone of `appendFormatRFC3339`: `Z` for offset zero, else the sign and
`hh:mm` of the offset truncated to minutes. -/
def appendZone (offset : Int) : GoString :=
  if offset = 0 then [(90 : Byte)]
  else
    (if Int.tdiv offset 60 < 0 then (45 : Byte) else (43 : Byte)) ::
      (digitsOf 2 ((Int.tdiv offset 60).natAbs / 60) ++
        (58 : Byte) :: digitsOf 2 ((Int.tdiv offset 60).natAbs % 60))

/-- The method `appendFormatRFC3339` with nanoseconds, for a year of 0 to 9999. -/
def Time.formatRFC3339 (t : Time) : GoString :=
  digitsOf 4 t.year.toNat ++ [(45 : Byte)] ++ digitsOf 2 t.month ++ [(45 : Byte)] ++
    digitsOf 2 t.day ++ [(84 : Byte)] ++ digitsOf 2 t.hour ++ [(58 : Byte)] ++
    digitsOf 2 t.minute ++ [(58 : Byte)] ++ digitsOf 2 t.second ++ appendNano t.nsec ++
    appendZone t.offset

/-- The method `Time.MarshalJSON`, giving the content of the JSON string: it
fails for a year outside 0 to 9999 and for a zone offset of 24 hours or more. -/
def Time.MarshalJSON (t : Time) : Except String GoString :=
  if t.year < 0 ∨ 9999 < t.year then
    Except.error "Time.MarshalJSON: year outside of range [0,9999]"
  else if t.offset ≠ 0 ∧ 24 ≤ (Int.tdiv t.offset 60).natAbs / 60 then
    Except.error "Time.MarshalJSON: timezone hour outside of range [0,23]"
  else Except.ok t.formatRFC3339

/-- The function `isLeap` of package `time`. -/
def isLeap (year : Int) : Bool :=
  decide (year % 4 = 0 ∧ (year % 100 ≠ 0 ∨ year % 400 = 0))

/-- The function `daysIn` of package `time`. -/
def daysIn (month : Nat) (year : Int) : Nat :=
  if month = 2 then (if isLeap year then 29 else 28)
  else if month = 4 ∨ month = 6 ∨ month = 9 ∨ month = 11 then 30
  else 31

/-- Whether the byte is an ASCII digit. -/
def isDigit (b : Byte) : Bool := decide (48 ≤ b.val ∧ b.val ≤ 57)

/-- The value of a run of ASCII digits read after `acc`; `none` when a byte is
not a digit. -/
def atoiFrom : Nat → GoString → Option Nat
  | acc, [] => some acc
  | acc, b :: rest => if isDigit b then atoiFrom (acc * 10 + (b.val - 48)) rest else none

/-- The longest run of digits at the head and what follows it. -/
def spanDigits : GoString → GoString × GoString
  | [] => ([], [])
  | b :: rest =>
    if isDigit b then ((spanDigits rest).1.cons b, (spanDigits rest).2) else ([], b :: rest)

/-- The function `getnum` of package `time`: one or two digits, exactly two when
`fixed`. -/
def getnum (s : GoString) (fixed : Bool) : Option (Nat × GoString) :=
  match s with
  | [] => none
  | b0 :: rest =>
    if !isDigit b0 then none
    else
      match rest with
      | [] => if fixed then none else some (b0.val - 48, [])
      | b1 :: rest1 =>
        if isDigit b1 then some ((b0.val - 48) * 10 + (b1.val - 48), rest1)
        else if fixed then none
        else some (b0.val - 48, b1 :: rest1)

/-- A literal byte of the layout. -/
def expect (b : Byte) : GoString → Option GoString
  | [] => none
  | c :: rest => if c = b then some rest else none

/-- The fractional second that may follow the seconds: a period or comma and at
least one digit; digits after the ninth are dropped (`parseNanoseconds`). -/
def parseFraction (s : GoString) : Option (Nat × GoString) :=
  match s with
  | sep :: d :: rest =>
    if (sep.val = 46 ∨ sep.val = 44) ∧ isDigit d then
      let run := spanDigits (d :: rest)
      let kept := run.1.take 9
      match atoiFrom 0 kept with
      | none => none
      | some ns => some (ns * 10 ^ (9 - kept.length), run.2)
    else some (0, s)
  | _ => some (0, s)

/-- The zone `Z07:00` of the layout: `Z`, or a sign and `hh:mm` with at most 24
hours and 60 minutes. The result is the offset in seconds. -/
def parseZone (s : GoString) : Option (Int × GoString) :=
  match s with
  | [] => none
  | z :: rest =>
    if z.val = 90 then some (0, rest)
    else
      match rest with
      | h1 :: h2 :: colon :: m1 :: m2 :: rest1 =>
        if colon.val ≠ 58 then none
        else
          match getnum [h1, h2] true, getnum [m1, m2] true with
          | some (hr, _), some (mm, _) =>
            if 24 < hr ∨ 60 < mm then none
            else if z.val = 43 then some (((hr * 60 + mm) * 60 : Nat), rest1)
            else if z.val = 45 then some (-(((hr * 60 + mm) * 60 : Nat) : Int), rest1)
            else none
          | _, _ => none
      | _ => none

/-- A number of the layout with its range and the literal byte before it:
`sep` when there is one, then `getnum`, then the check `lo ≤ n ≤ hi`. -/
def numField (sep : Option Byte) (fixed : Bool) (lo hi : Nat) (s : GoString) :
    Option (Nat × GoString) :=
  match (match sep with
         | none => some s
         | some b => expect b s) with
  | none => none
  | some s1 =>
    match getnum s1 fixed with
    | none => none
    | some (n, s2) => if n < lo ∨ hi < n then none else some (n, s2)

/-- The year `2006` of the layout: four bytes, all digits. -/
def parseYear (s : GoString) : Option (Nat × GoString) :=
  match s with
  | y1 :: y2 :: y3 :: y4 :: rest =>
    match atoiFrom 0 [y1, y2, y3, y4] with
    | none => none
    | some year => some (year, rest)
  | _ => none

/-- The date `2006-01-02` of the layout; the day is checked against the month
once the whole value is parsed. -/
def parseDate (s : GoString) : Option (Nat × Nat × Nat × GoString) :=
  match parseYear s with
  | none => none
  | some (year, s1) =>
    match numField (some 45) true 1 12 s1 with
    | none => none
    | some (month, s2) =>
      match numField (some 45) true 0 99 s2 with
      | none => none
      | some (day, s3) => some (year, month, day, s3)

/-- The clock `15:04:05` of the layout; the hour may have one digit. -/
def parseClock (s : GoString) : Option (Nat × Nat × Nat × GoString) :=
  match numField none false 0 23 s with
  | none => none
  | some (hour, s1) =>
    match numField (some 58) true 0 59 s1 with
    | none => none
    | some (minute, s2) =>
      match numField (some 58) true 0 59 s2 with
      | none => none
      | some (second, s3) => some (hour, minute, second, s3)

/-- The fraction and the zone that end the value; nothing may follow them. -/
def parseTail (s : GoString) : Option (Nat × Int) :=
  match parseFraction s with
  | none => none
  | some (nsec, s1) =>
    match parseZone s1 with
    | none => none
    | some (offset, s2) => if s2 = [] then some (nsec, offset) else none

/-- The call `time.Parse(time.RFC3339, s)`, on which `Time.UnmarshalJSON` rests. -/
def Time.parseRFC3339 (s : GoString) : Option Time :=
  match parseDate s with
  | none => none
  | some (year, month, day, s1) =>
    match expect 84 s1 with
    | none => none
    | some s2 =>
      match parseClock s2 with
      | none => none
      | some (hour, minute, second, s3) =>
        match parseTail s3 with
        | none => none
        | some (nsec, offset) =>
          if day < 1 ∨ daysIn month year < day then none
          else
            some { year := year, month := month, day := day, hour := hour,
                   minute := minute, second := second, nsec := nsec, offset := offset }

/-- The method `Time.UnmarshalJSON` on the content of a JSON string. -/
def Time.UnmarshalJSON (s : GoString) : Except String Time :=
  match Time.parseRFC3339 s with
  | some t => Except.ok t
  | none => Except.error "parsing time: cannot parse as RFC 3339"

/-- What every `time.Time` satisfies in this representation: the fields are a
date of the calendar and a clock reading. -/
def Time.Valid (t : Time) : Prop :=
  1 ≤ t.month ∧ t.month ≤ 12 ∧ 1 ≤ t.day ∧ t.day ≤ daysIn t.month t.year ∧
    t.hour < 24 ∧ t.minute < 60 ∧ t.second < 60 ∧ t.nsec < 1000000000

instance (t : Time) : Decidable t.Valid := by
  unfold Time.Valid
  infer_instance

/-! ### The struct codec -/

/-- The fields of `AnalyticsEvent` by their JSON tags. -/
inductive Field where
  | event_type
  | page
  | timestamp
  | session_id
  | user_agent
  | screen_width
  | screen_height
deriving DecidableEq, Repr

/-- The JSON name of each field, from the struct tags. -/
def Field.name : Field → GoString
  | Field.event_type => bytes "event_type"
  | Field.page => bytes "page"
  | Field.timestamp => bytes "timestamp"
  | Field.session_id => bytes "session_id"
  | Field.user_agent => bytes "user_agent"
  | Field.screen_width => bytes "screen_width"
  | Field.screen_height => bytes "screen_height"

/-- The fields in declaration order. -/
def Field.all : List Field :=
  [Field.event_type, Field.page, Field.timestamp, Field.session_id, Field.user_agent,
   Field.screen_width, Field.screen_height]

/-- Case folding of a member name, with `skip` bytes of an already folded rune
still to be passed over: ASCII letters go to upper case, and so do the two
other runes that fold onto ASCII letters, U+017F onto `S` and U+212A onto `K`. -/
def foldFrom : Nat → GoString → GoString
  | _, [] => []
  | skip + 1, _ :: rest => foldFrom skip rest
  | 0, b :: rest =>
    if 97 ≤ b.val ∧ b.val ≤ 122 then Fin.ofNat (b.val - 32) :: foldFrom 0 rest
    else if (b :: rest).take 2 = [0xC5, 0xBF] then (83 : Byte) :: foldFrom 1 rest
    else if (b :: rest).take 3 = [0xE2, 0x84, 0xAA] then (75 : Byte) :: foldFrom 2 rest
    else b :: foldFrom 0 rest

/-- Case folding of a member name, under which names are compared. -/
def foldName (s : GoString) : GoString := foldFrom 0 s

/-- The field a member name selects: the field of that exact name, else the
field whose name equals it under case folding. -/
def findField (key : GoString) : Option Field :=
  match Field.all.find? (fun f => decide (f.name = key)) with
  | some f => some f
  | none => Field.all.find? (fun f => decide (foldName f.name = foldName key))

/-- Decoding a JSON value into a field of type `string`. -/
def storeString (v : JSON) (old : GoString) : Except String GoString :=
  match v with
  | JSON.string s => Except.ok (toValidUTF8 s)
  | JSON.null => Except.ok old
  | _ => Except.error "json: cannot unmarshal into Go struct field of type string"

/-- Decoding a JSON value into a field of type `int` (64 bits). -/
def storeInt (v : JSON) (old : Int) : Except String Int :=
  match v with
  | JSON.number (JNumber.integer n) =>
    if -9223372036854775808 ≤ n ∧ n ≤ 9223372036854775807 then Except.ok n
    else Except.error "json: cannot unmarshal number into Go struct field of type int"
  | JSON.null => Except.ok old
  | _ => Except.error "json: cannot unmarshal into Go struct field of type int"

/-- Decoding a JSON value into a field of type `time.Time`, through
`Time.UnmarshalJSON`, which takes a string as it is spelled (here: its content)
and rejects every other value but `null`. -/
def storeTime (v : JSON) (old : Time) : Except String Time :=
  match v with
  | JSON.string s => Time.UnmarshalJSON s
  | JSON.null => Except.ok old
  | _ => Except.error "Time.UnmarshalJSON: input is not a JSON string"

/-- Decoding one member of an object into the event. A member that selects no
field is skipped. A member of the wrong type makes the call fail; the decoder
goes on to the next member before it reports the error, and the callers use
the event only when there is no error. -/
def decodeMember (e : AnalyticsEvent) (key : GoString) (v : JSON) :
    Except String AnalyticsEvent :=
  match findField (toValidUTF8 key) with
  | none => Except.ok e
  | some Field.event_type => (storeString v e.EventType).map fun x => { e with EventType := x }
  | some Field.page => (storeString v e.Page).map fun x => { e with Page := x }
  | some Field.timestamp => (storeTime v e.Timestamp).map fun x => { e with Timestamp := x }
  | some Field.session_id => (storeString v e.SessionID).map fun x => { e with SessionID := x }
  | some Field.user_agent => (storeString v e.UserAgent).map fun x => { e with UserAgent := x }
  | some Field.screen_width => (storeInt v e.ScreenWidth).map fun x => { e with ScreenWidth := x }
  | some Field.screen_height =>
    (storeInt v e.ScreenHeight).map fun x => { e with ScreenHeight := x }

/-- Decoding the members of an object in order; the call fails when a member
fails. -/
def decodeMembers : List (GoString × JSON) → AnalyticsEvent → Except String AnalyticsEvent
  | [], e => Except.ok e
  | (key, v) :: rest, e =>
    match decodeMember e key v with
    | Except.error err => Except.error err
    | Except.ok e1 => decodeMembers rest e1

/-- Decoding a JSON document into an event: `null` leaves the event as it is,
an object is decoded member by member, any other value is a type error. -/
def unmarshalValue (v : JSON) (e : AnalyticsEvent) : Except String AnalyticsEvent :=
  match v with
  | JSON.null => Except.ok e
  | JSON.object members => decodeMembers members e
  | _ => Except.error "json: cannot unmarshal into Go value of type shared.AnalyticsEvent"

/-- Decoding a payload into a zero-valued event: `json.Unmarshal(data, &event)`,
and for a request body `json.NewDecoder(body).Decode(&event)`. -/
def unmarshalEvent (p : Payload) : Except String AnalyticsEvent :=
  match p with
  | none => Except.error "invalid character looking for beginning of value"
  | some v => unmarshalValue v AnalyticsEvent.zero

/-- The members that `omitempty` keeps: `user_agent` unless empty, the two
screen sizes unless zero. -/
def optionalMembers (e : AnalyticsEvent) : List (GoString × JSON) :=
  (if e.UserAgent = [] then []
    else [(Field.user_agent.name, JSON.string (toValidUTF8 e.UserAgent))]) ++
  (if e.ScreenWidth = 0 then []
    else [(Field.screen_width.name, JSON.number (JNumber.integer e.ScreenWidth))]) ++
  (if e.ScreenHeight = 0 then []
    else [(Field.screen_height.name, JSON.number (JNumber.integer e.ScreenHeight))])

/-- The call `json.Marshal(event)`: an object with the members in field order;
it fails when the timestamp cannot be marshalled. -/
def marshalEvent (e : AnalyticsEvent) : Except String Payload :=
  match e.Timestamp.MarshalJSON with
  | Except.error err => Except.error err
  | Except.ok ts =>
    Except.ok (some (JSON.object
      ([ (Field.event_type.name, JSON.string (toValidUTF8 e.EventType)),
         (Field.page.name, JSON.string (toValidUTF8 e.Page)),
         (Field.timestamp.name, JSON.string ts),
         (Field.session_id.name, JSON.string (toValidUTF8 e.SessionID)) ] ++
       optionalMembers e)))

/-- The JSON codec as the services use it. -/
def encodingJSON : JSONCodec Payload Payload :=
  { Decode := unmarshalEvent, Marshal := marshalEvent, Unmarshal := unmarshalEvent }

/-- What every value of the Go struct satisfies in this representation: the
timestamp is a `time.Time` and the two `int` fields fit 64 bits. -/
def AnalyticsEvent.WellTyped (e : AnalyticsEvent) : Prop :=
  e.Timestamp.Valid ∧
    (-9223372036854775808 ≤ e.ScreenWidth ∧ e.ScreenWidth ≤ 9223372036854775807) ∧
    (-9223372036854775808 ≤ e.ScreenHeight ∧ e.ScreenHeight ≤ 9223372036854775807)

instance (e : AnalyticsEvent) : Decidable e.WellTyped := by
  unfold AnalyticsEvent.WellTyped
  infer_instance

/-- The five string fields are valid UTF-8. -/
def AnalyticsEvent.ValidText (e : AnalyticsEvent) : Prop :=
  validUTF8 e.EventType = true ∧ validUTF8 e.Page = true ∧ validUTF8 e.SessionID = true ∧
    validUTF8 e.UserAgent = true

instance (e : AnalyticsEvent) : Decidable e.ValidText := by
  unfold AnalyticsEvent.ValidText
  infer_instance

/-- A broker that acknowledges every message on partition 0, with the number
of messages already acknowledged as the offset. -/
def ackingProducer (ω : Type) : SyncProducer Nat ω :=
  { SendMessage := fun n _ => (n + 1, Except.ok (0, (n : Int))) }

/-- A broker that fails every send. -/
def failingProducer (ω : Type) : SyncProducer Nat ω :=
  { SendMessage := fun n _ => (n, Except.error "kafka: client has run out of available brokers") }

/-- A database that accepts every insert, with the number of rows as state. -/
def acceptingDatabase : Database Nat :=
  { QueryRow := fun n _ => (n + 1, Except.ok ((n : Int) + 1)) }

/-- A database that refuses every insert. -/
def refusingDatabase : Database Nat :=
  { QueryRow := fun n _ => (n, Except.error "pq: connection refused") }

/-! ## Authenticated transport (`src/shared/kafka.go`) -/

/-- Modelled from the spec: the state of a credential conversation, the type
`scram.ClientConversation` of the SCRAM library, which is not under `src/`. The
exchange has two rounds, so the client takes three steps: it sends its first
message, answers the server's salt and iteration count with its proof, and
checks the server's verifier. `done` is the terminal success state; a step that
fails ends the conversation in `failed`. -/
inductive ConvState where
  | starting
  | first
  | final
  | done
  | failed
deriving DecidableEq, Repr

/-- Modelled from the spec: the exchange client `scram.Client` of the SCRAM
library, which is not under `src/`: the identity and password it was built
from. -/
structure ScramClient where
  userName : String
  password : String
  authzID : String
deriving DecidableEq, Repr

/-- Modelled from the spec: the negotiated hash function `scram.HashGeneratorFcn`
of the SCRAM library, which is not under `src/`. `NewClient` fails when the
cryptographic primitive cannot be constructed; `message` computes the next
client message from the challenges received so far and the latest challenge,
and fails on a malformed or rejected challenge. -/
structure HashGeneratorFcn where
  NewClient : String → String → String → Except String ScramClient
  message : ScramClient → List String → String → Except String String

/-- Modelled from the spec: the conversation object `scram.ClientConversation`
of the SCRAM library, which is not under `src/`: the exchange client, the hash
function, the state and the transcript of challenges. -/
structure ClientConversation where
  client : ScramClient
  hash : HashGeneratorFcn
  state : ConvState
  transcript : List String

/-- Modelled from the spec: the method `Client.NewConversation` of the SCRAM
library, which is not under `src/`: a fresh exchange. -/
def ScramClient.NewConversation (c : ScramClient) (h : HashGeneratorFcn) : ClientConversation :=
  { client := c, hash := h, state := ConvState.starting, transcript := [] }

/-- Modelled from the spec: the state a successful step leads to; a finished
conversation takes no further step. -/
def ConvState.next : ConvState → Option ConvState
  | ConvState.starting => some ConvState.first
  | ConvState.first => some ConvState.final
  | ConvState.final => some ConvState.done
  | ConvState.done => none
  | ConvState.failed => none

/-- Modelled from the spec: the method `ClientConversation.Step` of the SCRAM
library, which is not under `src/`: given the server's latest challenge, return
the next client message and advance; fail on a malformed or rejected challenge,
and on a conversation that has already ended. -/
def ClientConversation.Step (cc : ClientConversation) (challenge : String) :
    ClientConversation × Except String String :=
  match cc.state.next with
  | none => (cc, Except.error "conversation already completed")
  | some state1 =>
    match cc.hash.message cc.client cc.transcript challenge with
    | Except.error err =>
      ({ cc with state := ConvState.failed, transcript := cc.transcript ++ [challenge] },
        Except.error err)
    | Except.ok response =>
      ({ cc with state := state1, transcript := cc.transcript ++ [challenge] },
        Except.ok response)

/-- Modelled from the spec: the method `ClientConversation.Done` of the SCRAM
library, which is not under `src/`: whether the exchange has reached the terminal
success state. -/
def ClientConversation.Done (cc : ClientConversation) : Bool :=
  decide (cc.state = ConvState.done)

/-- The struct `XDGSCRAMClient`: two pointers, nil until `Begin` sets them, and
the hash function. -/
structure XDGSCRAMClient where
  Client : Option ScramClient
  ClientConversation : Option ClientConversation
  HashGeneratorFcn : HashGeneratorFcn

/-- The method `XDGSCRAMClient.Begin`: the client and the error it returns. -/
def XDGSCRAMClient.Begin (x : XDGSCRAMClient) (userName password authzID : String) :
    XDGSCRAMClient × Option String :=
  match x.HashGeneratorFcn.NewClient userName password authzID with
  | Except.error err => ({ x with Client := none }, some err)
  | Except.ok c =>
    ({ x with Client := some c,
              ClientConversation := some (c.NewConversation x.HashGeneratorFcn) }, none)

/-- The method `XDGSCRAMClient.Step`; `none` is the nil dereference of a client
that has not begun. -/
def XDGSCRAMClient.Step (x : XDGSCRAMClient) (challenge : String) :
    Option (XDGSCRAMClient × Except String String) :=
  match x.ClientConversation with
  | none => none
  | some cc =>
    some ({ x with ClientConversation := some (cc.Step challenge).1 }, (cc.Step challenge).2)

/-- The method `XDGSCRAMClient.Done`; `none` is the nil dereference of a client
that has not begun. -/
def XDGSCRAMClient.Done (x : XDGSCRAMClient) : Option Bool :=
  x.ClientConversation.map ClientConversation.Done

/-- A run of `Step` calls, one per challenge: the client after them and the
results of the calls, in order. -/
def XDGSCRAMClient.run : XDGSCRAMClient → List String →
    Option (XDGSCRAMClient × List (Except String String))
  | x, [] => some (x, [])
  | x, challenge :: rest =>
    match x.Step challenge with
    | none => none
    | some (x1, result) =>
      match XDGSCRAMClient.run x1 rest with
      | none => none
      | some (x2, results) => some (x2, result :: results)

/-- Whether a `Step` call returned without an error. -/
def succeeded (result : Except String String) : Bool :=
  match result with
  | Except.ok _ => true
  | Except.error _ => false

/-- A hash function whose messages echo the challenge and which rejects the
challenge `"bad"`. -/
def echoHash : HashGeneratorFcn :=
  { NewClient := fun u p a => Except.ok { userName := u, password := p, authzID := a },
    message := fun _ _ challenge =>
      if challenge = "bad" then Except.error "rejected challenge" else Except.ok challenge }

/-- The events of the messages whose payload unmarshals, in arrival order. -/
def decodedEvents {β ω : Type} (J : JSONCodec β ω) :
    List (ConsumerMessage ω) → List AnalyticsEvent
  | [] => []
  | msg :: rest =>
    match J.Unmarshal msg.Value with
    | Except.error _ => decodedEvents J rest
    | Except.ok event => event :: decodedEvents J rest

/-- The database after the `QueryRow` call of `handleKafkaMessage` has been made
for each of the events in order, whatever each call returned. -/
def attemptInserts {δ : Type} (D : Database δ) : δ → List AnalyticsEvent → δ
  | d, [] => d
  | d, event :: rest => attemptInserts D (D.QueryRow d (insertArgs event)).1 rest

/-- A database that keeps the arguments of every `QueryRow` call it receives, in
call order, and accepts the insert. -/
def recordingDatabase : Database (List InsertArgs) :=
  { QueryRow := fun calls args => (calls ++ [args], Except.ok ((calls.length : Int) + 1)) }

/-- A database that keeps the arguments of every `QueryRow` call it receives, in
call order, and refuses the insert. -/
def recordingRefusingDatabase : Database (List InsertArgs) :=
  { QueryRow := fun calls args => (calls ++ [args], Except.error "pq: connection refused") }

/-- The event as its JSON encoding carries it: the four string fields coerced
to valid UTF-8. -/
def AnalyticsEvent.coerced (e : AnalyticsEvent) : AnalyticsEvent :=
  { e with EventType := toValidUTF8 e.EventType, Page := toValidUTF8 e.Page,
           SessionID := toValidUTF8 e.SessionID, UserAgent := toValidUTF8 e.UserAgent }

/-- A subscriber that has just started to listen on database state `d`. -/
def listening {δ : Type} (d : δ) : Sink δ := { db := d, inserts := [] }

/-! ## Concrete inputs -/

/-- A `POST` request whose body is not a JSON document. -/
def malformedRequest : Request Payload :=
  { Method := "POST", UserAgent := bytes "curl/8.5.0", Body := none }

/-- A `POST` request whose body is the empty object. -/
def emptyObjectRequest : Request Payload :=
  { Method := "POST", UserAgent := bytes "curl/8.5.0", Body := some (JSON.object []) }

/-- A page view with every member but `user_agent`. -/
def pageViewBody : JSON :=
  JSON.object
    [ (bytes "event_type", JSON.string (bytes "page_view")),
      (bytes "page", JSON.string (bytes "/projects")),
      (bytes "timestamp", JSON.string (bytes "2024-03-01T12:30:45.5+02:00")),
      (bytes "session_id", JSON.string (bytes "s-42")),
      (bytes "screen_width", JSON.number (JNumber.integer 1920)),
      (bytes "screen_height", JSON.number (JNumber.integer 1080)) ]

/-- A `POST` request that submits the page view. -/
def pageViewRequest : Request Payload :=
  { Method := "POST", UserAgent := bytes "Mozilla/5.0", Body := some pageViewBody }

/-- The event that the page view decodes to. -/
def pageViewEvent : AnalyticsEvent :=
  { EventType := bytes "page_view", Page := bytes "/projects",
    Timestamp := { year := 2024, month := 3, day := 1, hour := 12, minute := 30, second := 45,
                   nsec := 500000000, offset := 7200 },
    SessionID := bytes "s-42", UserAgent := [], ScreenWidth := 1920, ScreenHeight := 1080 }

/-- The three identifying members, and no timestamp. -/
def noTimestampMembers : List (GoString × JSON) :=
  [ (bytes "event_type", JSON.string (bytes "click")),
    (bytes "page", JSON.string (bytes "/")),
    (bytes "session_id", JSON.string (bytes "s-7")) ]

/-- A `POST` request whose body has the three identifying members and no
timestamp. -/
def noTimestampRequest : Request Payload :=
  { Method := "POST", UserAgent := bytes "Mozilla/5.0",
    Body := some (JSON.object noTimestampMembers) }

/-- The wire document published for the request without a timestamp. -/
def noTimestampWire : Payload :=
  some (JSON.object
    [ (bytes "event_type", JSON.string (bytes "click")),
      (bytes "page", JSON.string (bytes "/")),
      (bytes "timestamp", JSON.string (bytes "0001-01-01T00:00:00Z")),
      (bytes "session_id", JSON.string (bytes "s-7")),
      (bytes "user_agent", JSON.string (bytes "Mozilla/5.0")) ])

/-- The event the handler publishes for the page view: the decoded event with
the `User-Agent` header filled in. -/
def pageViewPublished : AnalyticsEvent :=
  { pageViewEvent with UserAgent := bytes "Mozilla/5.0" }

/-- The wire document of the published page view. -/
def pageViewWire : Payload :=
  some (JSON.object
    [ (bytes "event_type", JSON.string (bytes "page_view")),
      (bytes "page", JSON.string (bytes "/projects")),
      (bytes "timestamp", JSON.string (bytes "2024-03-01T12:30:45.5+02:00")),
      (bytes "session_id", JSON.string (bytes "s-42")),
      (bytes "user_agent", JSON.string (bytes "Mozilla/5.0")),
      (bytes "screen_width", JSON.number (JNumber.integer 1920)),
      (bytes "screen_height", JSON.number (JNumber.integer 1080)) ])

/-- The message the handler sends for the page view. -/
def pageViewMessage : ProducerMessage Payload :=
  { Topic := "portfolio-analytics-events", Value := pageViewWire }

/-- A client as `SCRAMClientGeneratorFunc` builds it: only the hash function set. -/
def freshClient (h : HashGeneratorFcn) : XDGSCRAMClient :=
  { Client := none, ClientConversation := none, HashGeneratorFcn := h }

/-- The client after `Begin` with the echo hash. -/
def begunClient : XDGSCRAMClient :=
  ((freshClient echoHash).Begin "user" "secret" "").1

/-- The page view with a `user_agent` that is not valid UTF-8: the byte 0xFF, as
a `User-Agent` header may carry it. -/
def rawByteEvent : AnalyticsEvent :=
  { pageViewEvent with UserAgent := [0xFF] }

/-- The page view with a timestamp whose zone offset is 2 hours and 30 seconds. -/
def oddZoneEvent : AnalyticsEvent :=
  { pageViewEvent with
    Timestamp := { pageViewEvent.Timestamp with offset := 7230 } }

/-- A `POST` request that submits the page view under a `User-Agent` header of
the single byte 0xFF. -/
def rawByteRequest : Request Payload :=
  { Method := "POST", UserAgent := [0xFF], Body := some pageViewBody }

/-- A `POST` request whose timestamp is written with a zone offset of 24
hours, which `time.Parse` accepts and `Time.MarshalJSON` refuses. -/
def dayZoneRequest : Request Payload :=
  { Method := "POST", UserAgent := bytes "Mozilla/5.0",
    Body := some (JSON.object
      [ (bytes "event_type", JSON.string (bytes "click")),
        (bytes "timestamp", JSON.string (bytes "2024-03-01T12:30:45+24:00")) ]) }

/-- The event that the request with the 24 hour offset decodes to. -/
def dayZoneEvent : AnalyticsEvent :=
  { AnalyticsEvent.zero with
    EventType := bytes "click",
    Timestamp := { year := 2024, month := 3, day := 1, hour := 12, minute := 30, second := 45,
                   nsec := 0, offset := 86400 } }

/-! ## Theorems: the publisher -/

theorem sends_of_mem {ω : Type} {cs : List (Call ω)} {m : ProducerMessage ω} :
    m ∈ sends cs → Call.SendMessage m ∈ cs := by
  induction cs with
  | nil => intro h; simp [sends] at h
  | cons c cs ih =>
    intro h
    cases c with
    | Decode => simp only [sends] at h; exact List.mem_cons_of_mem _ (ih h)
    | Marshal e => simp only [sends] at h; exact List.mem_cons_of_mem _ (ih h)
    | SendMessage m1 =>
      simp only [sends, List.mem_cons] at h
      rcases h with h | h
      · subst h; exact List.mem_cons_self _ _
      · exact List.mem_cons_of_mem _ (ih h)

/-- What a run of the handler that sent a message looks like: the body decoded,
the event with the user agent filled in was marshalled, and the three calls are
the decode, the marshal of that event and the send of its bytes. -/
theorem published_shape {β ω σ : Type} (J : JSONCodec β ω) (P : SyncProducer σ ω) (s : σ)
    (r : Request β) (msg : ProducerMessage ω)
    (h : msg ∈ sends (handleAnalytics J P s r).calls) :
    ∃ decoded, J.Decode r.Body = Except.ok decoded ∧
      J.Marshal (fillUserAgent decoded r.UserAgent) = Except.ok msg.Value ∧
      (handleAnalytics J P s r).calls =
        [Call.Decode, Call.Marshal (fillUserAgent decoded r.UserAgent), Call.SendMessage msg] := by
  unfold handleAnalytics at h ⊢
  by_cases h1 : r.Method = "OPTIONS"
  · simp [h1, sends] at h
  · by_cases h2 : r.Method = "POST"
    · simp only [h1, h2, if_false, ne_eq, not_true_eq_false] at h ⊢
      cases hd : J.Decode r.Body with
      | error err => simp [hd, sends] at h
      | ok decoded =>
        simp only [hd] at h ⊢
        cases hm : J.Marshal (fillUserAgent decoded r.UserAgent) with
        | error err => simp [hm, sends] at h
        | ok eventBytes =>
          simp only [hm] at h ⊢
          rcases hs : P.SendMessage s { Topic := "portfolio-analytics-events", Value := eventBytes }
            with ⟨s1, res⟩
          cases res with
          | error err =>
            simp only [hs, sends, List.mem_singleton] at h ⊢
            subst h
            exact ⟨decoded, rfl, hm, rfl⟩
          | ok po =>
            obtain ⟨partition, offset⟩ := po
            simp only [hs, sends, List.mem_singleton] at h ⊢
            subst h
            exact ⟨decoded, rfl, hm, rfl⟩
    · simp [h1, h2, sends] at h

/-- C1: a POST request whose body fails to decode is answered with status 400,
and the handler makes no call to `SendMessage`. -/
theorem invalid_body_rejected {β ω σ : Type} (J : JSONCodec β ω) (P : SyncProducer σ ω)
    (s : σ) (r : Request β) (err : String)
    (hPost : r.Method = "POST") (hDecode : J.Decode r.Body = Except.error err) :
    (handleAnalytics J P s r).response.status = 400 ∧
      sends (handleAnalytics J P s r).calls = [] ∧
      (handleAnalytics J P s r).broker = s := by
  unfold handleAnalytics
  have h1 : r.Method ≠ "OPTIONS" := by rw [hPost]; decide
  simp [h1, hPost, hDecode, sends]

theorem invalid_body_rejected_witness :
    malformedRequest.Method = "POST" ∧
      encodingJSON.Decode malformedRequest.Body =
        Except.error "invalid character looking for beginning of value" ∧
      (handleAnalytics encodingJSON (ackingProducer Payload) 0 malformedRequest).response.status
        = 400 ∧
      sends (handleAnalytics encodingJSON (ackingProducer Payload) 0 malformedRequest).calls = [] :=
  have t := invalid_body_rejected encodingJSON (ackingProducer Payload) 0 malformedRequest
    "invalid character looking for beginning of value" rfl rfl
  ⟨rfl, rfl, t.1, t.2.1⟩

/-- C2 fails on the empty object: the body `{}` decodes, the handler answers
201, and the one event it publishes has empty `event_type`, `page` and
`session_id`, in the struct and on the wire. -/
theorem empty_identity_fields_published :
    ∃ msg published,
      sends (handleAnalytics encodingJSON (ackingProducer Payload) 0 emptyObjectRequest).calls
        = [msg] ∧
      marshalled (handleAnalytics encodingJSON (ackingProducer Payload) 0
        emptyObjectRequest).calls = [published] ∧
      (handleAnalytics encodingJSON (ackingProducer Payload) 0 emptyObjectRequest).response.status
        = 201 ∧
      encodingJSON.Marshal published = Except.ok msg.Value ∧
      encodingJSON.Unmarshal msg.Value = Except.ok published ∧
      published.EventType = [] ∧ published.Page = [] ∧ published.SessionID = [] :=
  ⟨_, _, rfl, rfl, rfl, rfl, rfl, rfl, rfl, rfl⟩

/-! ### The timestamp -/

theorem decodeMember_keeps_timestamp (e e1 : AnalyticsEvent) (key : GoString) (v : JSON)
    (hkey : findField (toValidUTF8 key) ≠ some Field.timestamp)
    (h : decodeMember e key v = Except.ok e1) : e1.Timestamp = e.Timestamp := by
  unfold decodeMember at h
  cases hf : findField (toValidUTF8 key) with
  | none =>
    rw [hf] at h
    simp only [Except.ok.injEq] at h
    rw [← h]
  | some f =>
    rw [hf] at h
    cases f with
    | timestamp => exact absurd hf hkey
    | event_type =>
      simp only at h
      cases hs : storeString v e.EventType with
      | error err => rw [hs] at h; cases h
      | ok x => rw [hs] at h; simp only [Except.map, Except.ok.injEq] at h; rw [← h]
    | page =>
      simp only at h
      cases hs : storeString v e.Page with
      | error err => rw [hs] at h; cases h
      | ok x => rw [hs] at h; simp only [Except.map, Except.ok.injEq] at h; rw [← h]
    | session_id =>
      simp only at h
      cases hs : storeString v e.SessionID with
      | error err => rw [hs] at h; cases h
      | ok x => rw [hs] at h; simp only [Except.map, Except.ok.injEq] at h; rw [← h]
    | user_agent =>
      simp only at h
      cases hs : storeString v e.UserAgent with
      | error err => rw [hs] at h; cases h
      | ok x => rw [hs] at h; simp only [Except.map, Except.ok.injEq] at h; rw [← h]
    | screen_width =>
      simp only at h
      cases hs : storeInt v e.ScreenWidth with
      | error err => rw [hs] at h; cases h
      | ok x => rw [hs] at h; simp only [Except.map, Except.ok.injEq] at h; rw [← h]
    | screen_height =>
      simp only at h
      cases hs : storeInt v e.ScreenHeight with
      | error err => rw [hs] at h; cases h
      | ok x => rw [hs] at h; simp only [Except.map, Except.ok.injEq] at h; rw [← h]

theorem decodeMembers_keep_timestamp (members : List (GoString × JSON)) :
    ∀ e e1 : AnalyticsEvent,
      (∀ m ∈ members, findField (toValidUTF8 m.1) ≠ some Field.timestamp) →
      decodeMembers members e = Except.ok e1 → e1.Timestamp = e.Timestamp := by
  induction members with
  | nil =>
    intro e e1 _ h
    simp only [decodeMembers, Except.ok.injEq] at h
    rw [h]
  | cons m rest ih =>
    intro e e1 hkeys h
    obtain ⟨key, v⟩ := m
    simp only [decodeMembers] at h
    cases hm : decodeMember e key v with
    | error err => rw [hm] at h; cases h
    | ok e2 =>
      rw [hm] at h
      have h1 := ih e2 e1 (fun m hmem => hkeys m (List.mem_cons_of_mem _ hmem)) h
      have h2 := decodeMember_keeps_timestamp e e2 key v (hkeys (key, v) (List.mem_cons_self _ _)) hm
      rw [h1, h2]

theorem decodeMembers_append (front back : List (GoString × JSON)) :
    ∀ e e2 : AnalyticsEvent, decodeMembers (front ++ back) e = Except.ok e2 →
      ∃ e1, decodeMembers front e = Except.ok e1 ∧ decodeMembers back e1 = Except.ok e2 := by
  induction front with
  | nil => intro e e2 h; exact ⟨e, rfl, h⟩
  | cons m rest ih =>
    intro e e2 h
    obtain ⟨key, v⟩ := m
    simp only [List.cons_append, decodeMembers] at h ⊢
    cases hm : decodeMember e key v with
    | error err => rw [hm] at h; cases h
    | ok e3 =>
      rw [hm] at h
      exact ih e3 e2 h

theorem decodeMember_sets_timestamp (e e1 : AnalyticsEvent) (key text : GoString) (t : Time)
    (hkey : findField (toValidUTF8 key) = some Field.timestamp)
    (ht : Time.UnmarshalJSON text = Except.ok t)
    (h : decodeMember e key (JSON.string text) = Except.ok e1) : e1.Timestamp = t := by
  unfold decodeMember at h
  rw [hkey] at h
  simp only [storeTime, ht, Except.map, Except.ok.injEq] at h
  rw [← h]

/-- C7 (as the code has it): the handler publishes the decoded timestamp
unchanged. A body that supplies a timestamp is published with exactly that
timestamp (the value of its last `timestamp` member); a body that supplies none
is not rejected for that, and what is published is the zero time. -/
theorem timestamp_passed_through {σ : Type} (P : SyncProducer σ Payload) (s : σ)
    (r : Request Payload) (msg : ProducerMessage Payload)
    (h : msg ∈ sends (handleAnalytics encodingJSON P s r).calls) :
    ∃ decoded published,
      encodingJSON.Decode r.Body = Except.ok decoded ∧
      marshalled (handleAnalytics encodingJSON P s r).calls = [published] ∧
      encodingJSON.Marshal published = Except.ok msg.Value ∧
      published.Timestamp = decoded.Timestamp ∧
      ∀ members, r.Body = some (JSON.object members) →
        ((∀ m ∈ members, findField (toValidUTF8 m.1) ≠ some Field.timestamp) →
          published.Timestamp = Time.zero) ∧
        (∀ front key text back t,
          members = front ++ (key, JSON.string text) :: back →
          findField (toValidUTF8 key) = some Field.timestamp →
          (∀ m ∈ back, findField (toValidUTF8 m.1) ≠ some Field.timestamp) →
          Time.UnmarshalJSON text = Except.ok t →
          published.Timestamp = t) := by
  obtain ⟨decoded, hd, hm, hc⟩ := published_shape encodingJSON P s r msg h
  have hts : (fillUserAgent decoded r.UserAgent).Timestamp = decoded.Timestamp := by
    unfold fillUserAgent
    by_cases hu : decoded.UserAgent = [] <;> simp [hu]
  refine ⟨decoded, fillUserAgent decoded r.UserAgent, hd, ?_, hm, hts, ?_⟩
  · rw [hc]; rfl
  · intro members hbody
    have hdec : decodeMembers members AnalyticsEvent.zero = Except.ok decoded := by
      have := hd
      simp only [encodingJSON, hbody, unmarshalEvent, unmarshalValue] at this
      exact this
    constructor
    · intro hnone
      rw [hts, decodeMembers_keep_timestamp members _ _ hnone hdec]
      rfl
    · intro front key text back t hsplit hkey hback ht
      rw [hsplit] at hdec
      obtain ⟨e1, _, h2⟩ := decodeMembers_append front _ _ _ hdec
      simp only [decodeMembers] at h2
      cases hmem : decodeMember e1 key (JSON.string text) with
      | error err => rw [hmem] at h2; cases h2
      | ok e2 =>
        rw [hmem] at h2
        rw [hts, decodeMembers_keep_timestamp back _ _ hback h2]
        exact decodeMember_sets_timestamp e1 e2 key text t hkey ht hmem

theorem timestamp_passed_through_witness :
    pageViewMessage ∈
        sends (handleAnalytics encodingJSON (ackingProducer Payload) 0 pageViewRequest).calls ∧
      ∃ published,
        marshalled (handleAnalytics encodingJSON (ackingProducer Payload) 0
          pageViewRequest).calls = [published] ∧
        published.Timestamp = pageViewEvent.Timestamp :=
  have hin : pageViewMessage ∈
      sends (handleAnalytics encodingJSON (ackingProducer Payload) 0 pageViewRequest).calls :=
    List.mem_singleton.mpr rfl
  match timestamp_passed_through (ackingProducer Payload) 0 pageViewRequest pageViewMessage hin with
  | ⟨_, published, _, hp, _, _, hbody⟩ =>
    ⟨hin, published, hp,
      (hbody _ rfl).2
        [ (bytes "event_type", JSON.string (bytes "page_view")),
          (bytes "page", JSON.string (bytes "/projects")) ]
        (bytes "timestamp") (bytes "2024-03-01T12:30:45.5+02:00")
        [ (bytes "session_id", JSON.string (bytes "s-42")),
          (bytes "screen_width", JSON.number (JNumber.integer 1920)),
          (bytes "screen_height", JSON.number (JNumber.integer 1080)) ]
        pageViewEvent.Timestamp rfl (by decide) (by decide) rfl⟩

/-- C7 fails on a body without a timestamp: the request is not rejected, the
handler answers 201, and the one message it sends carries the zero time
`0001-01-01T00:00:00Z`, which the caller did not supply. -/
theorem missing_timestamp_published_as_zero :
    noTimestampRequest.Body = some (JSON.object noTimestampMembers) ∧
      (∀ m ∈ noTimestampMembers, findField (toValidUTF8 m.1) ≠ some Field.timestamp) ∧
      (handleAnalytics encodingJSON (ackingProducer Payload) 0 noTimestampRequest).response.status
        = 201 ∧
      sends (handleAnalytics encodingJSON (ackingProducer Payload) 0 noTimestampRequest).calls
        = [{ Topic := "portfolio-analytics-events", Value := noTimestampWire }] ∧
      ∃ published,
        marshalled (handleAnalytics encodingJSON (ackingProducer Payload) 0
          noTimestampRequest).calls = [published] ∧
        published.Timestamp = Time.zero :=
  ⟨rfl, by decide, rfl, rfl, _, rfl, rfl⟩

/-! ## Theorems: the subscriber -/

theorem handleKafkaMessage_inserts {β ω δ : Type} (J : JSONCodec β ω) (D : Database δ)
    (k : Sink δ) (msg : ConsumerMessage ω) :
    (handleKafkaMessage J D k msg).inserts =
        k.inserts ++ (decodedEvents J [msg]).map insertArgs ∧
      (handleKafkaMessage J D k msg).db = attemptInserts D k.db (decodedEvents J [msg]) := by
  unfold handleKafkaMessage decodedEvents
  cases hu : J.Unmarshal msg.Value with
  | error err => simp [decodedEvents, attemptInserts]
  | ok event =>
    simp only [decodedEvents, List.map, attemptInserts]
    rcases hq : D.QueryRow k.db (insertArgs event) with ⟨d1, res⟩
    cases res <;> exact ⟨rfl, rfl⟩

theorem decodedEvents_cons {β ω : Type} (J : JSONCodec β ω) (msg : ConsumerMessage ω)
    (rest : List (ConsumerMessage ω)) :
    decodedEvents J (msg :: rest) = decodedEvents J [msg] ++ decodedEvents J rest := by
  simp only [decodedEvents]
  cases J.Unmarshal msg.Value <;> rfl

theorem attemptInserts_append {δ : Type} (D : Database δ) (front back : List AnalyticsEvent) :
    ∀ d : δ, attemptInserts D d (front ++ back) =
      attemptInserts D (attemptInserts D d front) back := by
  induction front with
  | nil => intro d; rfl
  | cons e rest ih =>
    intro d
    simp only [List.cons_append, attemptInserts]
    exact ih _

theorem attemptInserts_recording (events : List AnalyticsEvent) :
    ∀ calls : List InsertArgs,
      attemptInserts recordingDatabase calls events = calls ++ events.map insertArgs := by
  induction events with
  | nil => intro calls; simp [attemptInserts]
  | cons e rest ih =>
    intro calls
    simp only [attemptInserts, List.map]
    have h := ih (calls ++ [insertArgs e])
    simp only [List.append_assoc, List.singleton_append] at h
    exact h

theorem attemptInserts_recordingRefusing (events : List AnalyticsEvent) :
    ∀ calls : List InsertArgs,
      attemptInserts recordingRefusingDatabase calls events =
        calls ++ events.map insertArgs := by
  induction events with
  | nil => intro calls; simp [attemptInserts]
  | cons e rest ih =>
    intro calls
    simp only [attemptInserts, List.map]
    have h := ih (calls ++ [insertArgs e])
    simp only [List.append_assoc, List.singleton_append] at h
    exact h

theorem consumeLoop_messages {β ω δ : Type} (J : JSONCodec β ω) (D : Database δ)
    (msgs : List (ConsumerMessage ω)) :
    ∀ k : Sink δ,
      (consumeLoop J D k (msgs.map Arrival.message)).state = LoopState.Listening ∧
      (consumeLoop J D k (msgs.map Arrival.message)).sink.inserts =
        k.inserts ++ (decodedEvents J msgs).map insertArgs ∧
      (consumeLoop J D k (msgs.map Arrival.message)).sink.db =
        attemptInserts D k.db (decodedEvents J msgs) := by
  induction msgs with
  | nil => intro k; simp [consumeLoop, decodedEvents, attemptInserts]
  | cons msg rest ih =>
    intro k
    have h := ih (handleKafkaMessage J D k msg)
    have hk := handleKafkaMessage_inserts J D k msg
    simp only [List.map, consumeLoop, loopStep]
    refine ⟨h.1, ?_, ?_⟩
    · rw [h.2.1, hk.1, decodedEvents_cons J msg rest, List.map_append, List.append_assoc]
    · rw [h.2.2, hk.2, decodedEvents_cons J msg rest, attemptInserts_append]

/-- C4: on any finite sequence of data messages, the `QueryRow` calls the
subscriber makes are, in arrival order, exactly one per message whose payload
unmarshals, each with the fields of the decoded event unchanged: the database
ends in the state that those calls, made in that order, lead to, whatever each
one returned, and a database that records its calls has recorded exactly the
decoded events, whether it accepts or refuses them. A payload that does not
unmarshal causes no call, and neither that nor a failed insert stops the loop,
which is still listening at the end. -/
theorem subscriber_relays_decoded_events {β ω δ : Type} (J : JSONCodec β ω) (D : Database δ)
    (d : δ) (msgs : List (ConsumerMessage ω)) :
    (consumeLoop J D (listening d) (msgs.map Arrival.message)).sink.db =
        attemptInserts D d (decodedEvents J msgs) ∧
      (consumeLoop J recordingDatabase (listening []) (msgs.map Arrival.message)).sink.db =
        (decodedEvents J msgs).map insertArgs ∧
      (consumeLoop J recordingRefusingDatabase (listening [])
          (msgs.map Arrival.message)).sink.db =
        (decodedEvents J msgs).map insertArgs ∧
      (consumeLoop J D (listening d) (msgs.map Arrival.message)).sink.inserts =
        (decodedEvents J msgs).map insertArgs ∧
      (consumeLoop J D (listening d) (msgs.map Arrival.message)).state = LoopState.Listening ∧
      (∀ e : AnalyticsEvent,
        (insertArgs e).event_type = e.EventType ∧ (insertArgs e).page = e.Page ∧
        (insertArgs e).session_id = e.SessionID ∧ (insertArgs e).user_agent = e.UserAgent ∧
        (insertArgs e).screen_width = e.ScreenWidth ∧
        (insertArgs e).screen_height = e.ScreenHeight ∧
        (insertArgs e).timestamp = e.Timestamp) := by
  have h := consumeLoop_messages J D msgs (listening d)
  have hrec := consumeLoop_messages J recordingDatabase msgs (listening [])
  have href := consumeLoop_messages J recordingRefusingDatabase msgs (listening [])
  refine ⟨h.2.2, ?_, ?_, ?_, h.1, fun e => ⟨rfl, rfl, rfl, rfl, rfl, rfl, rfl⟩⟩
  · rw [hrec.2.2]
    exact attemptInserts_recording _ []
  · rw [href.2.2]
    exact attemptInserts_recordingRefusing _ []
  · rw [h.2.1]
    rfl

/-- The feed valid A, corrupt, valid B makes the database receive the inserts A
then B, whether it accepts or refuses them. -/
theorem relay_skips_corrupt_message :
    (consumeLoop encodingJSON recordingDatabase (listening [])
        [Arrival.message { Value := pageViewWire, Offset := 10 },
         Arrival.message { Value := none, Offset := 11 },
         Arrival.message { Value := some (JSON.object []), Offset := 12 }]).sink.db =
      [insertArgs pageViewPublished, insertArgs AnalyticsEvent.zero] ∧
    (consumeLoop encodingJSON recordingRefusingDatabase (listening [])
        [Arrival.message { Value := pageViewWire, Offset := 10 },
         Arrival.message { Value := none, Offset := 11 },
         Arrival.message { Value := some (JSON.object []), Offset := 12 }]).sink.db =
      [insertArgs pageViewPublished, insertArgs AnalyticsEvent.zero] ∧
    (consumeLoop encodingJSON acceptingDatabase (listening 0)
        [Arrival.message { Value := pageViewWire, Offset := 10 },
         Arrival.message { Value := none, Offset := 11 },
         Arrival.message { Value := some (JSON.object []), Offset := 12 }]).sink.db = 2 := by
  refine ⟨?_, ?_, ?_⟩ <;> decide

/-- C9: once listening, the loop is in state `Stopped` after a sequence of
arrivals exactly when a termination signal is among them; a data message
(whatever its payload and whatever the insert returns) and a transport error
leave it listening. -/
theorem stopped_only_on_signal {β ω δ : Type} (J : JSONCodec β ω) (D : Database δ)
    (arrivals : List (Arrival ω)) (k : Sink δ) :
    ((consumeLoop J D k arrivals).state = LoopState.Stopped ↔
        ∃ a ∈ arrivals, a = Arrival.signal) ∧
      (∀ msg, (loopStep J D k (Arrival.message msg)).state = LoopState.Listening) ∧
      (∀ err, (loopStep J D k (Arrival.error err)).state = LoopState.Listening) := by
  refine ⟨?_, fun _ => rfl, fun _ => rfl⟩
  induction arrivals generalizing k with
  | nil => simp [consumeLoop]
  | cons a rest ih =>
    cases a with
    | message msg =>
      simp only [consumeLoop, loopStep, List.mem_cons, exists_eq_or_imp]
      rw [ih]
      simp
    | error err =>
      simp only [consumeLoop, loopStep, List.mem_cons, exists_eq_or_imp]
      rw [ih]
      simp
    | signal => simp [consumeLoop, loopStep]

/-! ## Theorems: the SCRAM client -/

theorem run_of_conversation (x : XDGSCRAMClient) (cc : ClientConversation)
    (h : x.ClientConversation = some cc) (challenges : List String) :
    ∃ x1 results cc1, x.run challenges = some (x1, results) ∧
      x1.ClientConversation = some cc1 := by
  induction challenges generalizing x cc with
  | nil => exact ⟨x, [], cc, rfl, h⟩
  | cons c rest ih =>
    obtain ⟨x2, results, cc2, hr, hc⟩ :=
      ih { x with ClientConversation := some (cc.Step c).1 } (cc.Step c).1 rfl
    refine ⟨x2, (cc.Step c).2 :: results, cc2, ?_, hc⟩
    simp only [XDGSCRAMClient.run, XDGSCRAMClient.Step, h, hr]

theorem run_done_stays (x : XDGSCRAMClient) (cc : ClientConversation)
    (h : x.ClientConversation = some cc) (hd : cc.state = ConvState.done)
    (challenges : List String) :
    ∃ x1 results, x.run challenges = some (x1, results) ∧ x1.Done = some true := by
  induction challenges generalizing x cc with
  | nil =>
    refine ⟨x, [], rfl, ?_⟩
    simp [XDGSCRAMClient.Done, h, ClientConversation.Done, hd]
  | cons c rest ih =>
    have hs : (cc.Step c).1 = cc := by
      simp [ClientConversation.Step, hd, ConvState.next]
    obtain ⟨x2, results, hr, hdone⟩ :=
      ih { x with ClientConversation := some (cc.Step c).1 } (cc.Step c).1 rfl (by rw [hs]; exact hd)
    refine ⟨x2, (cc.Step c).2 :: results, ?_, hdone⟩
    simp only [XDGSCRAMClient.run, XDGSCRAMClient.Step, h, hr]

theorem step_state (cc : ClientConversation) (c : String) :
    ((cc.Step c).1.state = cc.state ∧ cc.state.next = none ∧ succeeded (cc.Step c).2 = false) ∨
    ((cc.Step c).1.state = ConvState.failed ∧ succeeded (cc.Step c).2 = false) ∨
    (cc.state.next = some (cc.Step c).1.state ∧ succeeded (cc.Step c).2 = true) := by
  unfold ClientConversation.Step
  cases hn : cc.state.next with
  | none => left; simp [succeeded]
  | some st =>
    cases hm : cc.hash.message cc.client cc.transcript c with
    | error err => right; left; simp [succeeded]
    | ok response => right; right; simp [succeeded]

/-- A conversation that still needs `n` successful steps, or has failed, does not
report done after fewer than `n` steps. -/
theorem not_done_before_final_round (x : XDGSCRAMClient) (cc : ClientConversation)
    (h : x.ClientConversation = some cc) (challenges : List String) (n : Nat)
    (hstate : (cc.state = ConvState.starting ∧ n = 3) ∨ (cc.state = ConvState.first ∧ n = 2) ∨
      (cc.state = ConvState.final ∧ n = 1) ∨ cc.state = ConvState.failed)
    (hlen : challenges.length < n ∨ cc.state = ConvState.failed) :
    ∃ x1 results, x.run challenges = some (x1, results) ∧ x1.Done = some false := by
  induction challenges generalizing x cc n with
  | nil =>
    refine ⟨x, [], rfl, ?_⟩
    simp only [XDGSCRAMClient.Done, h, Option.map_some', ClientConversation.Done]
    rcases hstate with hs | hs | hs | hs <;> simp [hs]
  | cons c rest ih =>
    have key : ∃ x1 results,
        XDGSCRAMClient.run { x with ClientConversation := some (cc.Step c).1 } rest =
          some (x1, results) ∧ x1.Done = some false := by
      rcases step_state cc c with h1 | h1 | h1
      · -- the conversation had ended: only possible from failed here
        have hf : cc.state = ConvState.failed := by
          rcases hstate with hs | hs | hs | hs
          · rw [hs.1] at h1; simp [ConvState.next] at h1
          · rw [hs.1] at h1; simp [ConvState.next] at h1
          · rw [hs.1] at h1; simp [ConvState.next] at h1
          · exact hs
        exact ih _ (cc.Step c).1 rfl 0 (Or.inr (Or.inr (Or.inr (h1.1.trans hf))))
          (Or.inr (h1.1.trans hf))
      · exact ih _ (cc.Step c).1 rfl 0 (Or.inr (Or.inr (Or.inr h1.1))) (Or.inr h1.1)
      · rcases hstate with hs | hs | hs | hs
        · rw [hs.1] at h1
          simp only [ConvState.next, Option.some.injEq] at h1
          have hl : rest.length < 2 := by
            rcases hlen with hl | hl
            · simp only [List.length_cons] at hl; omega
            · rw [hs.1] at hl; cases hl
          exact ih _ (cc.Step c).1 rfl 2 (Or.inr (Or.inl ⟨h1.1.symm, rfl⟩)) (Or.inl hl)
        · rw [hs.1] at h1
          simp only [ConvState.next, Option.some.injEq] at h1
          have hl : rest.length < 1 := by
            rcases hlen with hl | hl
            · simp only [List.length_cons] at hl; omega
            · rw [hs.1] at hl; cases hl
          exact ih _ (cc.Step c).1 rfl 1 (Or.inr (Or.inr (Or.inl ⟨h1.1.symm, rfl⟩))) (Or.inl hl)
        · exfalso
          rcases hlen with hl | hl
          · simp only [List.length_cons] at hl; omega
          · rw [hs.1] at hl; cases hl
        · rw [hs] at h1; simp [ConvState.next] at h1
    obtain ⟨x1, results, hr, hd⟩ := key
    refine ⟨x1, (cc.Step c).2 :: results, ?_, hd⟩
    simp only [XDGSCRAMClient.run, XDGSCRAMClient.Step, h, hr]

theorem step_succeeded_advances (cc : ClientConversation) (c : String)
    (h : succeeded (cc.Step c).2 = true) : cc.state.next = some (cc.Step c).1.state := by
  rcases step_state cc c with h1 | h1 | h1
  · rw [h1.2.2] at h; cases h
  · rw [h1.2] at h; cases h
  · exact h1.1

/-- C10: in a conversation started by `Begin`, `Done` reports false as long as
fewer than the three steps of the exchange have been taken; after the third
step, when all three succeeded, `Done` reports true, and it still reports true
after any further calls of `Step`. -/
theorem done_only_after_final_step (x0 x : XDGSCRAMClient) (userName password authzID : String)
    (hBegin : x0.Begin userName password authzID = (x, none)) :
    (∀ challenges : List String, challenges.length < 3 →
        ∃ x1 results, x.run challenges = some (x1, results) ∧ x1.Done = some false) ∧
      (∀ (challenges : List String) x1 results, challenges.length = 3 →
        x.run challenges = some (x1, results) →
        (∀ result ∈ results, succeeded result = true) →
        x1.Done = some true ∧
        ∀ more : List String,
          ∃ x2 results2, x1.run more = some (x2, results2) ∧ x2.Done = some true) := by
  unfold XDGSCRAMClient.Begin at hBegin
  cases hn : x0.HashGeneratorFcn.NewClient userName password authzID with
  | error err => rw [hn] at hBegin; simp at hBegin
  | ok c =>
    rw [hn] at hBegin
    simp only [Prod.mk.injEq, and_true] at hBegin
    have hcc : x.ClientConversation = some (c.NewConversation x0.HashGeneratorFcn) := by
      rw [← hBegin]
    constructor
    · intro challenges hlen
      exact not_done_before_final_round x _ hcc challenges 3 (Or.inl ⟨rfl, rfl⟩) (Or.inl hlen)
    · intro challenges x1 results hlen hrun hok
      match challenges, hlen with
      | [c1, c2, c3], _ =>
        simp only [XDGSCRAMClient.run, XDGSCRAMClient.Step, hcc, Option.some.injEq,
          Prod.mk.injEq] at hrun
        obtain ⟨hx1, hres⟩ := hrun
        subst hres
        have h1 := step_succeeded_advances (c.NewConversation x0.HashGeneratorFcn) c1
          (hok _ (by simp))
        have h2 := step_succeeded_advances
          ((c.NewConversation x0.HashGeneratorFcn).Step c1).1 c2 (hok _ (by simp))
        have h3 := step_succeeded_advances
          (((c.NewConversation x0.HashGeneratorFcn).Step c1).1.Step c2).1 c3 (hok _ (by simp))
        have s1 : ((c.NewConversation x0.HashGeneratorFcn).Step c1).1.state = ConvState.first := by
          simpa [ScramClient.NewConversation, ConvState.next] using h1.symm
        rw [s1] at h2
        have s2 : (((c.NewConversation x0.HashGeneratorFcn).Step c1).1.Step c2).1.state =
            ConvState.final := by
          simpa [ConvState.next] using h2.symm
        rw [s2] at h3
        have s3 : ((((c.NewConversation x0.HashGeneratorFcn).Step c1).1.Step c2).1.Step c3).1.state
            = ConvState.done := by
          simpa [ConvState.next] using h3.symm
        have hc1 : x1.ClientConversation = some
            ((((c.NewConversation x0.HashGeneratorFcn).Step c1).1.Step c2).1.Step c3).1 := by
          rw [← hx1]
        refine ⟨?_, fun more => run_done_stays x1 _ hc1 s3 more⟩
        simp [XDGSCRAMClient.Done, hc1, ClientConversation.Done, s3]

theorem done_only_after_final_step_witness :
    (freshClient echoHash).Begin "user" "secret" "" = (begunClient, none) ∧
      (∃ x1 results, begunClient.run ["", "r=nonce,s=salt,i=4096"] = some (x1, results) ∧
        x1.Done = some false) ∧
      (∃ x1 results, begunClient.run ["", "r=nonce,s=salt,i=4096", "v=signature"] =
          some (x1, results) ∧ x1.Done = some true ∧
        ∃ x2 results2, x1.run ["again"] = some (x2, results2) ∧ x2.Done = some true) :=
  have t := done_only_after_final_step (freshClient echoHash) begunClient "user" "secret" "" rfl
  have early := t.1 ["", "r=nonce,s=salt,i=4096"] (by decide)
  match hr : begunClient.run ["", "r=nonce,s=salt,i=4096", "v=signature"] with
  | some (x1, results) =>
    have late := t.2 ["", "r=nonce,s=salt,i=4096", "v=signature"] x1 results rfl hr
      (by
        have hres : results = [Except.ok "", Except.ok "r=nonce,s=salt,i=4096",
            Except.ok "v=signature"] := by
          have h2 : begunClient.run ["", "r=nonce,s=salt,i=4096", "v=signature"] =
              some (x1, results) := hr
          simp [XDGSCRAMClient.run, XDGSCRAMClient.Step, begunClient, freshClient,
            XDGSCRAMClient.Begin, echoHash, ClientConversation.Step, ConvState.next,
            ScramClient.NewConversation] at h2
          exact h2.2.symm
        intro result hmem
        rw [hres] at hmem
        simp only [List.mem_cons, List.mem_singleton, List.not_mem_nil, or_false] at hmem
        rcases hmem with h | h | h <;> rw [h] <;> rfl)
    ⟨rfl, early, x1, results, rfl, late.1, late.2 ["again"]⟩
  | none => absurd hr (by
      simp [XDGSCRAMClient.run, XDGSCRAMClient.Step, begunClient, freshClient,
        XDGSCRAMClient.Begin, echoHash])

/-! ## Theorems: the wire format -/

theorem coerceFrom_valid (s : GoString) :
    ∀ pending : Nat, validFrom pending s = true → coerceFrom pending s = s := by
  induction s with
  | nil => intro pending _; cases pending <;> rfl
  | cons b rest ih =>
    intro pending h
    cases pending with
    | succ n =>
      simp only [validFrom] at h
      simp only [coerceFrom, ih n h]
    | zero =>
      simp only [validFrom] at h
      simp only [coerceFrom]
      cases hr : runeLen (b :: rest) with
      | zero => rw [hr] at h; cases h
      | succ n =>
        rw [hr] at h
        simp only [ih n h]

theorem toValidUTF8_valid (s : GoString) (h : validUTF8 s = true) : toValidUTF8 s = s :=
  coerceFrom_valid s 0 h

theorem digit_val (d : Nat) : (digit d).val = 48 + d % 10 := by
  simp only [digit, Fin.ofNat, Fin.val_mk]
  omega

theorem isDigit_digit (d : Nat) : isDigit (digit d) = true := by
  simp only [isDigit, digit_val, decide_eq_true_eq]
  omega

theorem digit_value (d : Nat) : (digit d).val - 48 = d % 10 := by
  rw [digit_val]
  omega

theorem digitsOf_two (n : Nat) : digitsOf 2 n = [digit (n / 10), digit n] := by
  simp [digitsOf]

theorem digitsOf_all_digits (width : Nat) :
    ∀ n : Nat, ∀ b ∈ digitsOf width n, isDigit b = true := by
  induction width with
  | zero => intro n b hb; simp [digitsOf] at hb
  | succ w ih =>
    intro n b hb
    simp only [digitsOf, List.mem_append, List.mem_singleton] at hb
    rcases hb with hb | hb
    · exact ih _ b hb
    · rw [hb]; exact isDigit_digit n

theorem digitsOf_length (width : Nat) : ∀ n : Nat, (digitsOf width n).length = width := by
  induction width with
  | zero => intro n; rfl
  | succ w ih => intro n; simp [digitsOf, ih]

theorem atoiFrom_append (xs ys : GoString) :
    ∀ acc : Nat, atoiFrom acc (xs ++ ys) = (atoiFrom acc xs).bind (fun a => atoiFrom a ys) := by
  induction xs with
  | nil => intro acc; rfl
  | cons b rest ih =>
    intro acc
    simp only [List.cons_append, atoiFrom]
    by_cases hb : isDigit b = true
    · simp only [hb, if_true]; exact ih _
    · simp [hb]

theorem atoiFrom_digitsOf (width : Nat) :
    ∀ n acc : Nat, atoiFrom acc (digitsOf width n) = some (acc * 10 ^ width + n % 10 ^ width) := by
  induction width with
  | zero => intro n acc; simp [digitsOf, atoiFrom, Nat.mod_one]
  | succ w ih =>
    intro n acc
    simp only [digitsOf, atoiFrom_append, ih, Option.some_bind, atoiFrom, isDigit_digit, if_true,
      digit_value]
    congr 1
    have h1 : n % 10 ^ (w + 1) = (n / 10 % 10 ^ w) * 10 + n % 10 := by
      rw [Nat.pow_succ, Nat.mul_comm (10 ^ w) 10, Nat.mod_mul]
      omega
    rw [h1, Nat.pow_succ]
    ring

theorem getnum_two (a b : Nat) (rest : GoString) (fixed : Bool) :
    getnum (digit a :: digit b :: rest) fixed = some (a % 10 * 10 + b % 10, rest) := by
  simp [getnum, isDigit_digit, digit_value]

theorem getnum_digitsOf (n : Nat) (rest : GoString) (fixed : Bool) (h : n < 100) :
    getnum (digitsOf 2 n ++ rest) fixed = some (n, rest) := by
  rw [digitsOf_two]
  simp only [List.cons_append, List.nil_append, getnum_two]
  congr 2
  omega

theorem parseYear_digitsOf (y : Nat) (rest : GoString) (h : y < 10000) :
    parseYear (digitsOf 4 y ++ rest) = some (y, rest) := by
  have h4 : digitsOf 4 y = [digit (y / 10 / 10 / 10), digit (y / 10 / 10), digit (y / 10), digit y] := by
    simp [digitsOf]
  have ha := atoiFrom_digitsOf 4 y 0
  rw [h4] at ha
  rw [h4]
  simp only [List.cons_append, List.nil_append, parseYear, ha]
  congr 2
  omega

theorem numField_sep (sep : Byte) (fixed : Bool) (lo hi n : Nat) (rest : GoString)
    (h1 : lo ≤ n) (h2 : n ≤ hi) (h3 : n < 100) :
    numField (some sep) fixed lo hi (sep :: (digitsOf 2 n ++ rest)) = some (n, rest) := by
  have hn : ¬ (n < lo ∨ hi < n) := by omega
  simp [numField, expect, getnum_digitsOf n rest fixed h3, hn]

theorem numField_plain (fixed : Bool) (lo hi n : Nat) (rest : GoString)
    (h1 : lo ≤ n) (h2 : n ≤ hi) (h3 : n < 100) :
    numField none fixed lo hi (digitsOf 2 n ++ rest) = some (n, rest) := by
  have hn : ¬ (n < lo ∨ hi < n) := by omega
  simp [numField, getnum_digitsOf n rest fixed h3, hn]

theorem parseDate_format (y m d : Nat) (rest : GoString)
    (hy : y < 10000) (hm1 : 1 ≤ m) (hm2 : m ≤ 12) (hd : d < 100) :
    parseDate (digitsOf 4 y ++ (45 :: (digitsOf 2 m ++ (45 :: (digitsOf 2 d ++ rest))))) =
      some (y, m, d, rest) := by
  simp only [parseDate, parseYear_digitsOf y _ hy,
    numField_sep 45 true 1 12 m _ hm1 hm2 (by omega),
    numField_sep 45 true 0 99 d _ (by omega) (by omega) hd]

theorem parseClock_format (hh mm ss : Nat) (rest : GoString)
    (h1 : hh < 24) (h2 : mm < 60) (h3 : ss < 60) :
    parseClock (digitsOf 2 hh ++ (58 :: (digitsOf 2 mm ++ (58 :: (digitsOf 2 ss ++ rest))))) =
      some (hh, mm, ss, rest) := by
  simp only [parseClock, numField_plain false 0 23 hh _ (by omega) (by omega) (by omega),
    numField_sep 58 true 0 59 mm _ (by omega) (by omega) (by omega),
    numField_sep 58 true 0 59 ss _ (by omega) (by omega) (by omega)]

theorem appendZone_head (offset : Int) :
    ∃ z rest, appendZone offset = z :: rest ∧ isDigit z = false ∧ z.val ≠ 46 ∧ z.val ≠ 44 := by
  unfold appendZone
  by_cases h0 : offset = 0
  · exact ⟨90, [], by rw [if_pos h0], by decide, by decide, by decide⟩
  · by_cases hz : Int.tdiv offset 60 < 0
    · exact ⟨45, _, by rw [if_neg h0, if_pos hz], by decide, by decide, by decide⟩
    · exact ⟨43, _, by rw [if_neg h0, if_neg hz], by decide, by decide, by decide⟩

theorem parseZone_east (hr mm : Nat) (h1 : hr < 24) (h2 : mm < 60) :
    parseZone ((43 : Byte) :: (digitsOf 2 hr ++ (58 : Byte) :: digitsOf 2 mm)) =
      some ((((hr * 60 + mm) * 60 : Nat) : Int), []) := by
  have g1 := getnum_digitsOf hr [] true (by omega)
  have g2 := getnum_digitsOf mm [] true (by omega)
  rw [digitsOf_two] at g1 g2 ⊢
  rw [digitsOf_two]
  simp only [List.cons_append, List.nil_append] at g1 g2 ⊢
  have hn : ¬ (24 < hr ∨ 60 < mm) := by omega
  have v43 : ((43 : Byte) : Nat) = 43 := rfl
  have v45 : ((45 : Byte) : Nat) = 45 := rfl
  have v58 : ((58 : Byte) : Nat) = 58 := rfl
  simp [parseZone, g1, g2, hn, v43, v45, v58]

theorem parseZone_west (hr mm : Nat) (h1 : hr < 24) (h2 : mm < 60) :
    parseZone ((45 : Byte) :: (digitsOf 2 hr ++ (58 : Byte) :: digitsOf 2 mm)) =
      some (-(((hr * 60 + mm) * 60 : Nat) : Int), []) := by
  have g1 := getnum_digitsOf hr [] true (by omega)
  have g2 := getnum_digitsOf mm [] true (by omega)
  rw [digitsOf_two] at g1 g2 ⊢
  rw [digitsOf_two]
  simp only [List.cons_append, List.nil_append] at g1 g2 ⊢
  have hn : ¬ (24 < hr ∨ 60 < mm) := by omega
  have v43 : ((43 : Byte) : Nat) = 43 := rfl
  have v45 : ((45 : Byte) : Nat) = 45 := rfl
  have v58 : ((58 : Byte) : Nat) = 58 := rfl
  simp [parseZone, g1, g2, hn, v43, v45, v58]

theorem parseZone_appendZone (offset : Int) (hmin : offset % 60 = 0)
    (hrange : offset = 0 ∨ (Int.tdiv offset 60).natAbs / 60 < 24) :
    parseZone (appendZone offset) = some (offset, []) := by
  unfold appendZone
  by_cases h0 : offset = 0
  · rw [if_pos h0, h0]; rfl
  · have hr : (Int.tdiv offset 60).natAbs / 60 < 24 := by
      rcases hrange with h | h
      · exact absurd h h0
      · exact h
    have hdiv : Int.tdiv offset 60 = offset / 60 :=
      Int.tdiv_eq_ediv_of_dvd (Int.dvd_of_emod_eq_zero hmin)
    rw [hdiv] at hr
    rw [if_neg h0, hdiv]
    have hmm : (offset / 60).natAbs % 60 < 60 := Nat.mod_lt _ (by decide)
    by_cases hz : offset / 60 < 0
    · rw [if_pos hz, parseZone_west _ _ hr hmm]
      congr 2
      omega
    · rw [if_neg hz, parseZone_east _ _ hr hmm]
      congr 2
      omega

theorem trimZeros_split (l : GoString) :
    ∃ k : Nat, l = trimZeros l ++ List.replicate k (48 : Byte) := by
  refine ⟨(l.reverse.takeWhile (fun b => decide (b.val = 48))).length, ?_⟩
  have h := List.takeWhile_append_dropWhile (fun b : Byte => decide (b.val = 48)) l.reverse
  have hz : (l.reverse.takeWhile (fun b => decide (b.val = 48))).reverse =
      List.replicate (l.reverse.takeWhile (fun b => decide (b.val = 48))).length (48 : Byte) := by
    rw [List.eq_replicate_iff]
    refine ⟨by simp, ?_⟩
    intro b hb
    rw [List.mem_reverse] at hb
    have := List.mem_takeWhile_imp hb
    simp only [decide_eq_true_eq] at this
    exact Fin.ext this
  have h2 := congrArg List.reverse h
  rw [List.reverse_append, List.reverse_reverse] at h2
  unfold trimZeros
  rw [← hz]
  exact h2.symm

theorem atoiFrom_zeros (k : Nat) :
    ∀ acc : Nat, atoiFrom acc (List.replicate k (48 : Byte)) = some (acc * 10 ^ k) := by
  induction k with
  | zero => intro acc; simp [atoiFrom]
  | succ n ih =>
    intro acc
    have hd : isDigit (48 : Byte) = true := by decide
    have hv : ((48 : Byte) : Nat) - 48 = 0 := by decide
    simp only [List.replicate_succ, atoiFrom, hd, if_true, hv, ih, Nat.add_zero]
    congr 1
    rw [Nat.pow_succ]
    ring

theorem spanDigits_append (xs : GoString) (z : Byte) (rest : GoString)
    (hxs : ∀ b ∈ xs, isDigit b = true) (hz : isDigit z = false) :
    spanDigits (xs ++ z :: rest) = (xs, z :: rest) := by
  induction xs with
  | nil => simp [spanDigits, hz]
  | cons b tail ih =>
    have hb : isDigit b = true := hxs b (List.mem_cons_self _ _)
    have ht := ih (fun c hc => hxs c (List.mem_cons_of_mem _ hc))
    simp [spanDigits, hb, ht]

theorem parseFraction_appendNano (nsec : Nat) (z : Byte) (rest : GoString)
    (hz : isDigit z = false) (h46 : z.val ≠ 46) (h44 : z.val ≠ 44) (h : nsec < 1000000000) :
    parseFraction (appendNano nsec ++ z :: rest) = some (nsec, z :: rest) := by
  unfold appendNano
  by_cases h0 : nsec = 0
  · rw [if_pos h0, h0, List.nil_append]
    cases rest with
    | nil => rfl
    | cons d rest1 =>
      have hc : ¬ ((z.val = 46 ∨ z.val = 44) ∧ isDigit d = true) := by
        intro hc; rcases hc.1 with h1 | h1
        · exact h46 h1
        · exact h44 h1
      simp only [parseFraction, hc, if_false]
  · rw [if_neg h0]
    obtain ⟨k, hk⟩ := trimZeros_split (digitsOf 9 nsec)
    have hall : ∀ b ∈ trimZeros (digitsOf 9 nsec), isDigit b = true := by
      intro b hb
      apply digitsOf_all_digits 9 nsec b
      rw [hk]
      exact List.mem_append_left _ hb
    have hlen : (trimZeros (digitsOf 9 nsec)).length + k = 9 := by
      have := congrArg List.length hk
      rw [digitsOf_length, List.length_append, List.length_replicate] at this
      exact this.symm
    have hval := atoiFrom_digitsOf 9 nsec 0
    rw [hk, atoiFrom_append] at hval
    cases hv : atoiFrom 0 (trimZeros (digitsOf 9 nsec)) with
    | none => rw [hv] at hval; cases hval
    | some v =>
      rw [hv, Option.some_bind, atoiFrom_zeros] at hval
      have hnum : v * 10 ^ k = nsec := by
        have := Option.some.inj hval
        have hm : nsec % 10 ^ 9 = nsec := Nat.mod_eq_of_lt (by norm_num; exact h)
        omega
      cases htz : trimZeros (digitsOf 9 nsec) with
      | nil =>
        rw [htz] at hv
        simp only [atoiFrom, Option.some.injEq] at hv
        rw [← hv] at hnum
        omega
      | cons d tail =>
        rw [htz] at hall hlen hv
        have hd : isDigit d = true := hall d (List.mem_cons_self _ _)
        have hspan := spanDigits_append (d :: tail) z rest hall hz
        have hv46 : ((46 : Byte) : Nat) = 46 := rfl
        have htake : (d :: tail).take 9 = d :: tail := List.take_of_length_le (by omega)
        have hk9 : 9 - (d :: tail).length = k := by omega
        simp only [List.cons_append] at hspan ⊢
        simp only [parseFraction, hv46, true_or, hd, and_self, if_true, hspan, htake, hv, hk9,
          hnum]

theorem parseTail_format (nsec : Nat) (offset : Int) (h : nsec < 1000000000)
    (hmin : offset % 60 = 0)
    (hrange : offset = 0 ∨ (Int.tdiv offset 60).natAbs / 60 < 24) :
    parseTail (appendNano nsec ++ appendZone offset) = some (nsec, offset) := by
  obtain ⟨z, rest, hz, hd, h46, h44⟩ := appendZone_head offset
  have hf := parseFraction_appendNano nsec z rest hd h46 h44 h
  rw [← hz] at hf
  simp [parseTail, hf, parseZone_appendZone offset hmin hrange]

/-- The time codec round-trips: a time with a whole-minute zone offset that
`MarshalJSON` accepts is what `UnmarshalJSON` reads back from its output. -/
theorem time_round_trip (t : Time) (text : GoString) (hv : t.Valid)
    (hmin : t.offset % 60 = 0) (hm : t.MarshalJSON = Except.ok text) :
    Time.UnmarshalJSON text = Except.ok t := by
  unfold Time.MarshalJSON at hm
  by_cases hy : t.year < 0 ∨ 9999 < t.year
  · rw [if_pos hy] at hm; cases hm
  · rw [if_neg hy] at hm
    by_cases hzone : t.offset ≠ 0 ∧ 24 ≤ (Int.tdiv t.offset 60).natAbs / 60
    · rw [if_pos hzone] at hm; cases hm
    · rw [if_neg hzone] at hm
      have htext : text = t.formatRFC3339 := (Except.ok.inj hm).symm
      obtain ⟨hm1, hm2, hd1, hd2, hh, hmi, hs, hn⟩ := hv
      have hrange : t.offset = 0 ∨ (Int.tdiv t.offset 60).natAbs / 60 < 24 := by
        by_cases h0 : t.offset = 0
        · exact Or.inl h0
        · right
          by_contra hc
          exact hzone ⟨h0, by omega⟩
      have hyear : t.year.toNat < 10000 := by omega
      have hday : t.day < 100 := by
        have : daysIn t.month t.year ≤ 31 := by
          unfold daysIn
          split
          · split <;> omega
          · split <;> omega
        omega
      have hfmt : t.formatRFC3339 =
          digitsOf 4 t.year.toNat ++ (45 :: (digitsOf 2 t.month ++ (45 :: (digitsOf 2 t.day ++
            (84 :: (digitsOf 2 t.hour ++ (58 :: (digitsOf 2 t.minute ++ (58 ::
              (digitsOf 2 t.second ++ (appendNano t.nsec ++ appendZone t.offset))))))))))) := by
        simp [Time.formatRFC3339]
      have hyy : ((t.year.toNat : Nat) : Int) = t.year := Int.toNat_of_nonneg (by omega)
      have hdd : ¬ (t.day < 1 ∨ daysIn t.month t.year < t.day) := by omega
      unfold Time.UnmarshalJSON Time.parseRFC3339
      rw [htext, hfmt, parseDate_format _ _ _ _ hyear hm1 hm2 hday]
      simp only [expect, if_true, parseClock_format _ _ _ _ hh hmi hs,
        parseTail_format _ _ hn hmin hrange, hyy, if_neg hdd]

theorem findField_name (f : Field) : findField (toValidUTF8 f.name) = some f := by
  cases f <;> decide

/-- Decoding the members that `marshalEvent` writes, into a zero event, gives
the fields back. -/
theorem decodeMembers_marshalled (et pg sid ua text : GoString) (ts : Time) (sw sh : Int)
    (h1 : validUTF8 et = true) (h2 : validUTF8 pg = true) (h3 : validUTF8 sid = true)
    (h4 : validUTF8 ua = true)
    (hsw : -9223372036854775808 ≤ sw ∧ sw ≤ 9223372036854775807)
    (hsh : -9223372036854775808 ≤ sh ∧ sh ≤ 9223372036854775807)
    (hback : Time.UnmarshalJSON text = Except.ok ts) :
    decodeMembers
        ([ (Field.event_type.name, JSON.string (toValidUTF8 et)),
           (Field.page.name, JSON.string (toValidUTF8 pg)),
           (Field.timestamp.name, JSON.string text),
           (Field.session_id.name, JSON.string (toValidUTF8 sid)) ] ++
          optionalMembers
            { EventType := et, Page := pg, Timestamp := ts, SessionID := sid, UserAgent := ua,
              ScreenWidth := sw, ScreenHeight := sh })
        AnalyticsEvent.zero =
      Except.ok
        { EventType := et, Page := pg, Timestamp := ts, SessionID := sid, UserAgent := ua,
          ScreenWidth := sw, ScreenHeight := sh } := by
  have k1 := findField_name Field.event_type
  have k2 := findField_name Field.page
  have k3 := findField_name Field.timestamp
  have k4 := findField_name Field.session_id
  have k5 := findField_name Field.user_agent
  have k6 := findField_name Field.screen_width
  have k7 := findField_name Field.screen_height
  simp only [optionalMembers, toValidUTF8_valid _ h1, toValidUTF8_valid _ h2,
    toValidUTF8_valid _ h3, toValidUTF8_valid _ h4]
  by_cases hua : ua = [] <;> by_cases hsw0 : sw = 0 <;> by_cases hsh0 : sh = 0 <;>
    simp [hua, hsw0, hsh0, decodeMembers, decodeMember, k1, k2, k3, k4, k5, k6, k7,
      storeString, storeTime, storeInt, hback, Except.map, AnalyticsEvent.zero,
      toValidUTF8_valid _ h1, toValidUTF8_valid _ h2, toValidUTF8_valid _ h3,
      toValidUTF8_valid _ h4, hsw, hsh]

/-- C5 (as the code has it): for every event whose string fields are valid UTF-8
and whose timestamp has a whole-minute zone offset, when `json.Marshal` accepts
the event, unmarshalling its output gives back the event, equal in all seven
fields; this covers the events whose optional fields are empty or zero and are
left out of the encoding. -/
theorem wire_round_trip (e : AnalyticsEvent) (w : Payload)
    (hTyped : e.WellTyped) (hText : e.ValidText) (hZone : e.Timestamp.offset % 60 = 0)
    (hMarshal : encodingJSON.Marshal e = Except.ok w) :
    encodingJSON.Unmarshal w = Except.ok e := by
  obtain ⟨et, pg, ts, sid, ua, sw, sh⟩ := e
  obtain ⟨hvalid, hsw, hsh⟩ := hTyped
  obtain ⟨h1, h2, h3, h4⟩ := hText
  simp only at hvalid hsw hsh h1 h2 h3 h4 hZone
  simp only [encodingJSON, marshalEvent] at hMarshal
  cases hts : ts.MarshalJSON with
  | error err => rw [hts] at hMarshal; cases hMarshal
  | ok text =>
    rw [hts] at hMarshal
    have hback := time_round_trip ts text hvalid hZone hts
    rw [← Except.ok.inj hMarshal]
    simp only [encodingJSON, unmarshalEvent, unmarshalValue]
    exact decodeMembers_marshalled et pg sid ua text ts sw sh h1 h2 h3 h4 hsw hsh hback

theorem wire_round_trip_witness :
    (pageViewPublished.WellTyped ∧ pageViewPublished.ValidText ∧
        pageViewPublished.Timestamp.offset % 60 = 0 ∧
        encodingJSON.Marshal pageViewPublished = Except.ok pageViewWire ∧
        encodingJSON.Unmarshal pageViewWire = Except.ok pageViewPublished) ∧
      (encodingJSON.Marshal AnalyticsEvent.zero =
          Except.ok (some (JSON.object
            [ (bytes "event_type", JSON.string []),
              (bytes "page", JSON.string []),
              (bytes "timestamp", JSON.string (bytes "0001-01-01T00:00:00Z")),
              (bytes "session_id", JSON.string []) ])) ∧
        encodingJSON.Unmarshal (some (JSON.object
            [ (bytes "event_type", JSON.string []),
              (bytes "page", JSON.string []),
              (bytes "timestamp", JSON.string (bytes "0001-01-01T00:00:00Z")),
              (bytes "session_id", JSON.string []) ])) = Except.ok AnalyticsEvent.zero) :=
  ⟨⟨by decide, by decide, by decide, rfl,
      wire_round_trip pageViewPublished pageViewWire (by decide) (by decide) (by decide) rfl⟩,
    rfl, wire_round_trip AnalyticsEvent.zero _ (by decide) (by decide) (by decide) rfl⟩

/-- C5 fails on two kinds of event. A string that is not valid UTF-8 comes back
with U+FFFD in place of the invalid byte; this is what happens to a `User-Agent`
header of the byte 0xFF between the handler and the insert. A timestamp whose
zone offset is not a whole number of minutes comes back with the seconds of the
offset dropped. -/
theorem wire_round_trip_fails :
    (rawByteEvent.WellTyped ∧
        ∃ w e1, encodingJSON.Marshal rawByteEvent = Except.ok w ∧
          encodingJSON.Unmarshal w = Except.ok e1 ∧
          e1.UserAgent = replacementChar ∧ e1 ≠ rawByteEvent) ∧
      (marshalled (handleAnalytics encodingJSON (ackingProducer Payload) 0 rawByteRequest).calls
          = [rawByteEvent] ∧
        ∃ msg, sends (handleAnalytics encodingJSON (ackingProducer Payload) 0
            rawByteRequest).calls = [msg] ∧
          (consumeLoop encodingJSON acceptingDatabase (listening 0)
              [Arrival.message { Value := msg.Value, Offset := 0 }]).sink.inserts =
            [insertArgs { rawByteEvent with UserAgent := replacementChar }]) ∧
      (oddZoneEvent.WellTyped ∧ oddZoneEvent.ValidText ∧
        ∃ w e1, encodingJSON.Marshal oddZoneEvent = Except.ok w ∧
          encodingJSON.Unmarshal w = Except.ok e1 ∧
          e1.Timestamp.offset = 7200 ∧ e1 ≠ oddZoneEvent) :=
  ⟨⟨by decide, _, _, rfl, rfl, rfl, by decide⟩,
    ⟨rfl, _, rfl, by decide⟩,
    ⟨by decide, by decide, _, _, rfl, rfl, rfl, by decide⟩⟩


theorem runeLen_replacement (rest : GoString) : runeLen (replacementChar ++ rest) = 3 := rfl

theorem runeLen_coerce (b : Byte) (rest : GoString) (n : Nat)
    (h : runeLen (b :: rest) = n + 1) : runeLen (b :: coerceFrom n rest) = n + 1 := by
  unfold runeLen at h ⊢
  by_cases h0 : b.val < 0x80
  · simp only [h0, if_true] at h ⊢
    exact h
  · simp only [h0, if_false] at h ⊢
    cases hl : leadByte b with
    | none => rw [hl] at h; simp at h
    | some triple =>
      obtain ⟨size, lo, hi⟩ := triple
      rw [hl] at h
      simp only at h ⊢
      cases rest with
      | nil => simp at h
      | cons b1 rest1 =>
        simp only at h
        by_cases hb1 : b1.val < lo ∨ hi < b1.val
        · simp [hb1] at h
        · simp only [hb1, if_false] at h
          by_cases hs2 : size ≤ 2
          · simp only [hs2, if_true] at h
            have hn : n = 1 := by omega
            subst hn
            simp [coerceFrom, hb1, hs2]
          · simp only [hs2, if_false] at h
            cases rest1 with
            | nil => simp at h
            | cons b2 rest2 =>
              simp only at h
              by_cases hb2 : isCont b2 = true
              · simp only [hb2, Bool.not_true, Bool.false_eq_true, if_false] at h
                by_cases hs3 : size ≤ 3
                · simp only [hs3, if_true] at h
                  have hn : n = 2 := by omega
                  subst hn
                  simp [coerceFrom, hb1, hs2, hb2, hs3]
                · simp only [hs3, if_false] at h
                  cases rest2 with
                  | nil => simp at h
                  | cons b3 rest3 =>
                    simp only at h
                    by_cases hb3 : isCont b3 = true
                    · simp only [hb3, Bool.not_true, Bool.false_eq_true, if_false] at h
                      have hn : n = 3 := by omega
                      subst hn
                      simp [coerceFrom, hb1, hs2, hb2, hs3, hb3]
                    · simp [hb3] at h
              · simp [hb2] at h

theorem validFrom_coerceFrom (s : GoString) :
    ∀ pending : Nat, validFrom pending (coerceFrom pending s) = true := by
  induction s with
  | nil => intro pending; cases pending <;> rfl
  | cons b rest ih =>
    intro pending
    cases pending with
    | succ n => simp only [coerceFrom, validFrom]; exact ih n
    | zero =>
      simp only [coerceFrom]
      cases hr : runeLen (b :: rest) with
      | zero =>
        simp only
        have h3 := runeLen_replacement (coerceFrom 0 rest)
        simp only [replacementChar, List.cons_append, List.nil_append] at h3 ⊢
        simp only [validFrom, h3]
        exact ih 0
      | succ n =>
        simp only [validFrom, runeLen_coerce b rest n hr]
        exact ih n

theorem validUTF8_toValidUTF8 (s : GoString) : validUTF8 (toValidUTF8 s) = true :=
  validFrom_coerceFrom s 0

theorem numField_bounds (sep : Option Byte) (fixed : Bool) (lo hi n : Nat) (s rest : GoString)
    (h : numField sep fixed lo hi s = some (n, rest)) : lo ≤ n ∧ n ≤ hi := by
  unfold numField at h
  split at h
  · cases h
  · split at h
    · cases h
    · split at h
      · cases h
      · simp only [Option.some.injEq, Prod.mk.injEq] at h
        omega

theorem parseDate_bounds (s rest : GoString) (y m d : Nat)
    (h : parseDate s = some (y, m, d, rest)) : 1 ≤ m ∧ m ≤ 12 := by
  unfold parseDate at h
  split at h
  · cases h
  · split at h
    · cases h
    · rename_i month s2 hm
      split at h
      · cases h
      · simp only [Option.some.injEq, Prod.mk.injEq] at h
        have := numField_bounds _ _ _ _ _ _ _ hm
        omega

theorem parseClock_bounds (s rest : GoString) (hh mm ss : Nat)
    (h : parseClock s = some (hh, mm, ss, rest)) : hh < 24 ∧ mm < 60 ∧ ss < 60 := by
  unfold parseClock at h
  split at h
  · cases h
  · rename_i hour s1 h1
    split at h
    · cases h
    · rename_i minute s2 h2
      split at h
      · cases h
      · rename_i second s3 h3
        simp only [Option.some.injEq, Prod.mk.injEq] at h
        have b1 := numField_bounds _ _ _ _ _ _ _ h1
        have b2 := numField_bounds _ _ _ _ _ _ _ h2
        have b3 := numField_bounds _ _ _ _ _ _ _ h3
        omega

theorem atoiFrom_bound (xs : GoString) :
    ∀ acc v : Nat, atoiFrom acc xs = some v → v < (acc + 1) * 10 ^ xs.length := by
  induction xs with
  | nil =>
    intro acc v h
    simp only [atoiFrom, Option.some.injEq] at h
    simp only [List.length_nil, Nat.pow_zero, Nat.mul_one]
    omega
  | cons b rest ih =>
    intro acc v h
    simp only [atoiFrom] at h
    by_cases hb : isDigit b = true
    · simp only [hb, if_true] at h
      have h1 := ih _ v h
      have hd : b.val - 48 ≤ 9 := by
        simp only [isDigit, decide_eq_true_eq] at hb
        omega
      have h2 : (acc * 10 + (b.val - 48) + 1) * 10 ^ rest.length ≤
          ((acc + 1) * 10) * 10 ^ rest.length :=
        Nat.mul_le_mul_right _ (by omega)
      rw [List.length_cons, Nat.pow_succ, Nat.mul_comm (10 ^ rest.length) 10, ← Nat.mul_assoc]
      omega
    · simp [hb] at h

theorem parseFraction_bound (s rest : GoString) (ns : Nat)
    (h : parseFraction s = some (ns, rest)) : ns < 1000000000 := by
  unfold parseFraction at h
  split at h
  · rename_i sep d tail
    split at h
    · simp only at h
      split at h
      · cases h
      · rename_i v hv
        simp only [Option.some.injEq, Prod.mk.injEq] at h
        have hb := atoiFrom_bound _ _ _ hv
        have hlen : ((spanDigits (d :: tail)).1.take 9).length ≤ 9 := by
          rw [List.length_take]; omega
        rw [← h.1]
        have hp : 10 ^ ((spanDigits (d :: tail)).1.take 9).length *
            10 ^ (9 - ((spanDigits (d :: tail)).1.take 9).length) = 1000000000 := by
          rw [← Nat.pow_add, Nat.add_sub_cancel' hlen]
        have hpos : 0 < 10 ^ (9 - ((spanDigits (d :: tail)).1.take 9).length) :=
          Nat.pow_pos (by decide)
        calc v * 10 ^ (9 - ((spanDigits (d :: tail)).1.take 9).length)
            < (0 + 1) * 10 ^ ((spanDigits (d :: tail)).1.take 9).length *
              10 ^ (9 - ((spanDigits (d :: tail)).1.take 9).length) :=
              Nat.mul_lt_mul_of_pos_right hb hpos
          _ = 1000000000 := by rw [Nat.zero_add, Nat.one_mul, hp]
    · simp only [Option.some.injEq, Prod.mk.injEq] at h
      omega
  · simp only [Option.some.injEq, Prod.mk.injEq] at h
    omega

theorem parseZone_minutes (s rest : GoString) (offset : Int)
    (h : parseZone s = some (offset, rest)) : offset % 60 = 0 := by
  unfold parseZone at h
  split at h
  · cases h
  · split at h
    · simp only [Option.some.injEq, Prod.mk.injEq] at h
      omega
    · split at h
      · split at h
        · cases h
        · split at h
          · split at h
            · cases h
            · split at h
              · simp only [Option.some.injEq, Prod.mk.injEq] at h
                omega
              · split at h
                · simp only [Option.some.injEq, Prod.mk.injEq] at h
                  omega
                · cases h
          · cases h
      · cases h

theorem parseTail_bounds (s : GoString) (nsec : Nat) (offset : Int)
    (h : parseTail s = some (nsec, offset)) : nsec < 1000000000 ∧ offset % 60 = 0 := by
  unfold parseTail at h
  split at h
  · cases h
  · rename_i ns s1 hf
    split at h
    · cases h
    · rename_i off s2 hz
      split at h
      · simp only [Option.some.injEq, Prod.mk.injEq] at h
        exact ⟨h.1 ▸ parseFraction_bound _ _ _ hf, h.2 ▸ parseZone_minutes _ _ _ hz⟩
      · cases h

/-- What `time.Parse` accepts is a time, and its zone offset is whole minutes. -/
theorem parseRFC3339_valid (s : GoString) (t : Time) (h : Time.parseRFC3339 s = some t) :
    t.Valid ∧ t.offset % 60 = 0 := by
  unfold Time.parseRFC3339 at h
  split at h
  · cases h
  · rename_i year month day s1 hd
    split at h
    · cases h
    · split at h
      · cases h
      · rename_i hour minute second s3 hc
        split at h
        · cases h
        · rename_i nsec offset ht
          split at h
          · cases h
          · rename_i hday
            simp only [Option.some.injEq] at h
            have b1 := parseDate_bounds _ _ _ _ _ hd
            have b2 := parseClock_bounds _ _ _ _ _ hc
            have b3 := parseTail_bounds _ _ _ ht
            rw [← h]
            unfold Time.Valid
            simp only
            omega

/-! ## Theorems: the pipeline end to end -/

theorem storeString_valid (v : JSON) (old x : GoString) (h : storeString v old = Except.ok x)
    (hold : validUTF8 old = true) : validUTF8 x = true := by
  unfold storeString at h
  split at h
  · simp only [Except.ok.injEq] at h
    rw [← h]; exact validUTF8_toValidUTF8 _
  · simp only [Except.ok.injEq] at h
    rw [← h]; exact hold
  · cases h

theorem storeInt_range (v : JSON) (old x : Int) (h : storeInt v old = Except.ok x)
    (hold : -9223372036854775808 ≤ old ∧ old ≤ 9223372036854775807) :
    -9223372036854775808 ≤ x ∧ x ≤ 9223372036854775807 := by
  unfold storeInt at h
  split at h
  · split at h
    · rename_i hr
      simp only [Except.ok.injEq] at h
      rw [← h]; exact hr
    · cases h
  · simp only [Except.ok.injEq] at h
    rw [← h]; exact hold
  · cases h

theorem storeTime_valid (v : JSON) (old t : Time) (h : storeTime v old = Except.ok t)
    (hold : old.Valid ∧ old.offset % 60 = 0) : t.Valid ∧ t.offset % 60 = 0 := by
  unfold storeTime at h
  split at h
  · rename_i text
    unfold Time.UnmarshalJSON at h
    split at h
    · rename_i t1 hp
      simp only [Except.ok.injEq] at h
      rw [← h]; exact parseRFC3339_valid _ _ hp
    · cases h
  · simp only [Except.ok.injEq] at h
    rw [← h]; exact hold
  · cases h

/-- What the decoder never breaks: the event is well typed, its strings are
valid UTF-8 and the zone offset of its timestamp is whole minutes. -/
theorem decodeMember_sound (e e1 : AnalyticsEvent) (key : GoString) (v : JSON)
    (h : decodeMember e key v = Except.ok e1)
    (hinv : e.WellTyped ∧ e.ValidText ∧ e.Timestamp.offset % 60 = 0) :
    e1.WellTyped ∧ e1.ValidText ∧ e1.Timestamp.offset % 60 = 0 := by
  obtain ⟨⟨hv, hsw, hsh⟩, ⟨h1, h2, h3, h4⟩, hz⟩ := hinv
  unfold decodeMember at h
  cases hf : findField (toValidUTF8 key) with
  | none =>
    rw [hf] at h
    simp only [Except.ok.injEq] at h
    rw [← h]; exact ⟨⟨hv, hsw, hsh⟩, ⟨h1, h2, h3, h4⟩, hz⟩
  | some f =>
    rw [hf] at h
    cases f with
    | event_type =>
      simp only at h
      cases hs : storeString v e.EventType with
      | error err => rw [hs] at h; cases h
      | ok x =>
        rw [hs] at h; simp only [Except.map, Except.ok.injEq] at h; rw [← h]
        exact ⟨⟨hv, hsw, hsh⟩, ⟨storeString_valid _ _ _ hs h1, h2, h3, h4⟩, hz⟩
    | page =>
      simp only at h
      cases hs : storeString v e.Page with
      | error err => rw [hs] at h; cases h
      | ok x =>
        rw [hs] at h; simp only [Except.map, Except.ok.injEq] at h; rw [← h]
        exact ⟨⟨hv, hsw, hsh⟩, ⟨h1, storeString_valid _ _ _ hs h2, h3, h4⟩, hz⟩
    | timestamp =>
      simp only at h
      cases hs : storeTime v e.Timestamp with
      | error err => rw [hs] at h; cases h
      | ok x =>
        rw [hs] at h; simp only [Except.map, Except.ok.injEq] at h; rw [← h]
        have ht := storeTime_valid _ _ _ hs ⟨hv, hz⟩
        exact ⟨⟨ht.1, hsw, hsh⟩, ⟨h1, h2, h3, h4⟩, ht.2⟩
    | session_id =>
      simp only at h
      cases hs : storeString v e.SessionID with
      | error err => rw [hs] at h; cases h
      | ok x =>
        rw [hs] at h; simp only [Except.map, Except.ok.injEq] at h; rw [← h]
        exact ⟨⟨hv, hsw, hsh⟩, ⟨h1, h2, storeString_valid _ _ _ hs h3, h4⟩, hz⟩
    | user_agent =>
      simp only at h
      cases hs : storeString v e.UserAgent with
      | error err => rw [hs] at h; cases h
      | ok x =>
        rw [hs] at h; simp only [Except.map, Except.ok.injEq] at h; rw [← h]
        exact ⟨⟨hv, hsw, hsh⟩, ⟨h1, h2, h3, storeString_valid _ _ _ hs h4⟩, hz⟩
    | screen_width =>
      simp only at h
      cases hs : storeInt v e.ScreenWidth with
      | error err => rw [hs] at h; cases h
      | ok x =>
        rw [hs] at h; simp only [Except.map, Except.ok.injEq] at h; rw [← h]
        exact ⟨⟨hv, storeInt_range _ _ _ hs hsw, hsh⟩, ⟨h1, h2, h3, h4⟩, hz⟩
    | screen_height =>
      simp only at h
      cases hs : storeInt v e.ScreenHeight with
      | error err => rw [hs] at h; cases h
      | ok x =>
        rw [hs] at h; simp only [Except.map, Except.ok.injEq] at h; rw [← h]
        exact ⟨⟨hv, hsw, storeInt_range _ _ _ hs hsh⟩, ⟨h1, h2, h3, h4⟩, hz⟩

theorem decodeMembers_sound (members : List (GoString × JSON)) :
    ∀ e e1 : AnalyticsEvent, decodeMembers members e = Except.ok e1 →
      (e.WellTyped ∧ e.ValidText ∧ e.Timestamp.offset % 60 = 0) →
      (e1.WellTyped ∧ e1.ValidText ∧ e1.Timestamp.offset % 60 = 0) := by
  induction members with
  | nil =>
    intro e e1 h hinv
    simp only [decodeMembers, Except.ok.injEq] at h
    rw [← h]; exact hinv
  | cons m rest ih =>
    intro e e1 h hinv
    obtain ⟨key, v⟩ := m
    simp only [decodeMembers] at h
    cases hm : decodeMember e key v with
    | error err => rw [hm] at h; cases h
    | ok e2 =>
      rw [hm] at h
      exact ih e2 e1 h (decodeMember_sound e e2 key v hm hinv)

theorem unmarshalEvent_sound (p : Payload) (e : AnalyticsEvent)
    (h : unmarshalEvent p = Except.ok e) :
    e.WellTyped ∧ e.ValidText ∧ e.Timestamp.offset % 60 = 0 := by
  have hzero : AnalyticsEvent.zero.WellTyped ∧ AnalyticsEvent.zero.ValidText ∧
      AnalyticsEvent.zero.Timestamp.offset % 60 = 0 := by decide
  unfold unmarshalEvent at h
  split at h
  · cases h
  · rename_i v
    unfold unmarshalValue at h
    split at h
    · simp only [Except.ok.injEq] at h
      rw [← h]; exact hzero
    · exact decodeMembers_sound _ _ _ h hzero
    · cases h

/-- The round trip of the pipeline: when the `User-Agent` header is valid UTF-8,
what the subscriber unmarshals from a message the handler sent is the event the
handler decoded from the body, with the header as user agent when the body gave
none; and that is the one insert the subscriber attempts for the message. -/
theorem pipeline_round_trip {σ δ : Type} (P : SyncProducer σ Payload) (s : σ)
    (r : Request Payload) (msg : ProducerMessage Payload) (D : Database δ) (d : δ)
    (offset : Int)
    (h : msg ∈ sends (handleAnalytics encodingJSON P s r).calls)
    (hAgent : validUTF8 r.UserAgent = true) :
    ∃ decoded,
      encodingJSON.Decode r.Body = Except.ok decoded ∧
      encodingJSON.Unmarshal msg.Value = Except.ok (fillUserAgent decoded r.UserAgent) ∧
      (consumeLoop encodingJSON D (listening d)
          [Arrival.message { Value := msg.Value, Offset := offset }]).sink.inserts =
        [insertArgs (fillUserAgent decoded r.UserAgent)] ∧
      (consumeLoop encodingJSON D (listening d)
          [Arrival.message { Value := msg.Value, Offset := offset }]).sink.db =
        (D.QueryRow d (insertArgs (fillUserAgent decoded r.UserAgent))).1 := by
  obtain ⟨decoded, hd, hm, _⟩ := published_shape encodingJSON P s r msg h
  have hinv := unmarshalEvent_sound r.Body decoded hd
  have hfill : (fillUserAgent decoded r.UserAgent).WellTyped ∧
      (fillUserAgent decoded r.UserAgent).ValidText ∧
      (fillUserAgent decoded r.UserAgent).Timestamp.offset % 60 = 0 := by
    obtain ⟨ht, ⟨h1, h2, h3, h4⟩, hz⟩ := hinv
    unfold fillUserAgent
    by_cases hu : decoded.UserAgent = []
    · rw [if_pos hu]
      exact ⟨ht, ⟨h1, h2, h3, hAgent⟩, hz⟩
    · rw [if_neg hu]
      exact ⟨ht, ⟨h1, h2, h3, h4⟩, hz⟩
  have hback : encodingJSON.Unmarshal msg.Value =
      Except.ok (fillUserAgent decoded r.UserAgent) := by
    generalize fillUserAgent decoded r.UserAgent = e at hm hfill
    obtain ⟨et, pg, ts, sid, ua, sw, sh⟩ := e
    obtain ⟨⟨hvalid, hsw, hsh⟩, ⟨h1, h2, h3, h4⟩, hz⟩ := hfill
    simp only [encodingJSON, marshalEvent] at hm
    cases hts : ts.MarshalJSON with
    | error err => rw [hts] at hm; cases hm
    | ok text =>
      rw [hts] at hm
      rw [← Except.ok.inj hm]
      simp only [encodingJSON, unmarshalEvent, unmarshalValue]
      exact decodeMembers_marshalled et pg sid ua text ts sw sh h1 h2 h3 h4 hsw hsh
        (time_round_trip ts text hvalid hz hts)
  refine ⟨decoded, hd, hback, ?_⟩
  simp only [consumeLoop, loopStep, handleKafkaMessage, hback, listening]
  rcases D.QueryRow d (insertArgs (fillUserAgent decoded r.UserAgent)) with ⟨d1, res⟩
  cases res <;> exact ⟨rfl, rfl⟩

theorem pipeline_round_trip_witness :
    pageViewMessage ∈
        sends (handleAnalytics encodingJSON (ackingProducer Payload) 0 pageViewRequest).calls ∧
      validUTF8 pageViewRequest.UserAgent = true ∧
      (consumeLoop encodingJSON refusingDatabase (listening 0)
          [Arrival.message { Value := pageViewMessage.Value, Offset := 7 }]).sink.inserts =
        [insertArgs pageViewPublished] :=
  have hin : pageViewMessage ∈
      sends (handleAnalytics encodingJSON (ackingProducer Payload) 0 pageViewRequest).calls :=
    List.mem_singleton.mpr rfl
  match pipeline_round_trip (ackingProducer Payload) 0 pageViewRequest pageViewMessage
      refusingDatabase 0 7 hin (by decide) with
  | ⟨decoded, hd, _, hins, _⟩ =>
    have hdec : decoded = pageViewEvent :=
      Except.ok.inj (hd.symm.trans (rfl : encodingJSON.Decode pageViewRequest.Body =
        Except.ok pageViewEvent))
    ⟨hin, by decide, by rw [hins, hdec]; rfl⟩

/-- A POST request whose body decodes but whose event `json.Marshal` refuses is
answered with status 500, and the handler makes no call to `SendMessage`. -/
theorem marshal_failure_not_sent {β ω σ : Type} (J : JSONCodec β ω) (P : SyncProducer σ ω)
    (s : σ) (r : Request β) (decoded : AnalyticsEvent) (err : String)
    (hPost : r.Method = "POST") (hDecode : J.Decode r.Body = Except.ok decoded)
    (hMarshal : J.Marshal (fillUserAgent decoded r.UserAgent) = Except.error err) :
    (handleAnalytics J P s r).response.status = 500 ∧
      sends (handleAnalytics J P s r).calls = [] ∧
      (handleAnalytics J P s r).broker = s := by
  unfold handleAnalytics
  have h1 : r.Method ≠ "OPTIONS" := by rw [hPost]; decide
  simp [h1, hPost, hDecode, hMarshal, sends]

theorem marshal_failure_not_sent_witness :
    dayZoneRequest.Method = "POST" ∧
      encodingJSON.Decode dayZoneRequest.Body = Except.ok dayZoneEvent ∧
      encodingJSON.Marshal (fillUserAgent dayZoneEvent dayZoneRequest.UserAgent) =
        Except.error "Time.MarshalJSON: timezone hour outside of range [0,23]" ∧
      (handleAnalytics encodingJSON (ackingProducer Payload) 0 dayZoneRequest).response.status
        = 500 ∧
      sends (handleAnalytics encodingJSON (ackingProducer Payload) 0 dayZoneRequest).calls = [] :=
  have t := marshal_failure_not_sent encodingJSON (ackingProducer Payload) 0 dayZoneRequest
    dayZoneEvent "Time.MarshalJSON: timezone hour outside of range [0,23]" rfl rfl rfl
  ⟨rfl, rfl, rfl, t.1, t.2.1⟩

/-! ## Theorems: what is published -/

theorem toValidUTF8_eq_nil (s : GoString) : toValidUTF8 s = [] ↔ s = [] := by
  constructor
  · intro h
    cases s with
    | nil => rfl
    | cons b rest =>
      exfalso
      simp only [toValidUTF8, coerceFrom] at h
      cases hr : runeLen (b :: rest) with
      | zero => rw [hr] at h; simp [replacementChar] at h
      | succ n => rw [hr] at h; simp at h
  · intro h
    rw [h]
    rfl

theorem toValidUTF8_idem (s : GoString) : toValidUTF8 (toValidUTF8 s) = toValidUTF8 s :=
  toValidUTF8_valid _ (validUTF8_toValidUTF8 s)

/-- What the subscriber unmarshals from the encoding of an event is the event
with its strings coerced to valid UTF-8. -/
theorem unmarshal_marshalled (e : AnalyticsEvent) (w : Payload) (hTyped : e.WellTyped)
    (hZone : e.Timestamp.offset % 60 = 0) (hm : marshalEvent e = Except.ok w) :
    unmarshalEvent w = Except.ok e.coerced := by
  obtain ⟨et, pg, ts, sid, ua, sw, sh⟩ := e
  obtain ⟨hvalid, hsw, hsh⟩ := hTyped
  simp only at hvalid hsw hsh hZone
  simp only [marshalEvent] at hm
  cases hts : ts.MarshalJSON with
  | error err => rw [hts] at hm; cases hm
  | ok text =>
    rw [hts] at hm
    rw [← Except.ok.inj hm]
    have key := decodeMembers_marshalled (toValidUTF8 et) (toValidUTF8 pg) (toValidUTF8 sid)
      (toValidUTF8 ua) text ts sw sh (validUTF8_toValidUTF8 _) (validUTF8_toValidUTF8 _)
      (validUTF8_toValidUTF8 _) (validUTF8_toValidUTF8 _) hsw hsh
      (time_round_trip ts text hvalid hZone hts)
    have hopt : optionalMembers
        { EventType := toValidUTF8 et, Page := toValidUTF8 pg, Timestamp := ts,
          SessionID := toValidUTF8 sid, UserAgent := toValidUTF8 ua, ScreenWidth := sw,
          ScreenHeight := sh } =
        optionalMembers
          { EventType := et, Page := pg, Timestamp := ts, SessionID := sid, UserAgent := ua,
            ScreenWidth := sw, ScreenHeight := sh } := by
      simp only [optionalMembers, toValidUTF8_eq_nil, toValidUTF8_idem]
    rw [hopt] at key
    simp only [toValidUTF8_idem] at key
    simp only [unmarshalEvent, unmarshalValue, AnalyticsEvent.coerced]
    exact key

/-- A message the handler sent, read back: the body decoded to an event with
valid strings, the handler marshalled that event with the user agent filled in,
the message carries the encoding, and the encoding unmarshals to that event
with its strings coerced to valid UTF-8. -/
theorem published_wire {σ : Type} (P : SyncProducer σ Payload) (s : σ) (r : Request Payload)
    (msg : ProducerMessage Payload)
    (h : msg ∈ sends (handleAnalytics encodingJSON P s r).calls) :
    ∃ decoded,
      encodingJSON.Decode r.Body = Except.ok decoded ∧
      decoded.ValidText ∧
      marshalled (handleAnalytics encodingJSON P s r).calls =
        [fillUserAgent decoded r.UserAgent] ∧
      encodingJSON.Marshal (fillUserAgent decoded r.UserAgent) = Except.ok msg.Value ∧
      encodingJSON.Unmarshal msg.Value =
        Except.ok (fillUserAgent decoded r.UserAgent).coerced := by
  obtain ⟨decoded, hd, hm, hc⟩ := published_shape encodingJSON P s r msg h
  obtain ⟨ht, htext, hz⟩ := unmarshalEvent_sound r.Body decoded hd
  have hfill : (fillUserAgent decoded r.UserAgent).WellTyped ∧
      (fillUserAgent decoded r.UserAgent).Timestamp.offset % 60 = 0 := by
    unfold fillUserAgent
    by_cases hu : decoded.UserAgent = []
    · rw [if_pos hu]; exact ⟨ht, hz⟩
    · rw [if_neg hu]; exact ⟨ht, hz⟩
  refine ⟨decoded, hd, htext, ?_, hm, unmarshal_marshalled _ _ hfill.1 hfill.2 hm⟩
  rw [hc]; rfl

/-- C6 (as the code has it): the event on the wire of a message the handler
sent differs from the event decoded from the body in at most `user_agent`. When
the decoded `user_agent` is empty, the one sent is the `User-Agent` header
coerced to valid UTF-8, which is the header itself when the header is valid
UTF-8; otherwise it is the decoded one. The six other fields are the decoded
ones. -/
theorem published_differs_in_user_agent_only {σ : Type} (P : SyncProducer σ Payload) (s : σ)
    (r : Request Payload) (msg : ProducerMessage Payload)
    (h : msg ∈ sends (handleAnalytics encodingJSON P s r).calls) :
    ∃ decoded sent,
      encodingJSON.Decode r.Body = Except.ok decoded ∧
      encodingJSON.Unmarshal msg.Value = Except.ok sent ∧
      sent.UserAgent =
        (if decoded.UserAgent = [] then toValidUTF8 r.UserAgent else decoded.UserAgent) ∧
      (validUTF8 r.UserAgent = true →
        sent.UserAgent = (if decoded.UserAgent = [] then r.UserAgent else decoded.UserAgent)) ∧
      sent.EventType = decoded.EventType ∧
      sent.Page = decoded.Page ∧
      sent.Timestamp = decoded.Timestamp ∧
      sent.SessionID = decoded.SessionID ∧
      sent.ScreenWidth = decoded.ScreenWidth ∧
      sent.ScreenHeight = decoded.ScreenHeight := by
  obtain ⟨decoded, hd, ⟨h1, h2, h3, h4⟩, _, _, hw⟩ := published_wire P s r msg h
  have hua : (fillUserAgent decoded r.UserAgent).coerced.UserAgent =
      (if decoded.UserAgent = [] then toValidUTF8 r.UserAgent else decoded.UserAgent) := by
    unfold fillUserAgent AnalyticsEvent.coerced
    by_cases hu : decoded.UserAgent = []
    · simp only [if_pos hu]
    · simp only [if_neg hu]
      exact toValidUTF8_valid _ h4
  have hfields : (fillUserAgent decoded r.UserAgent).EventType = decoded.EventType ∧
      (fillUserAgent decoded r.UserAgent).Page = decoded.Page ∧
      (fillUserAgent decoded r.UserAgent).Timestamp = decoded.Timestamp ∧
      (fillUserAgent decoded r.UserAgent).SessionID = decoded.SessionID ∧
      (fillUserAgent decoded r.UserAgent).ScreenWidth = decoded.ScreenWidth ∧
      (fillUserAgent decoded r.UserAgent).ScreenHeight = decoded.ScreenHeight := by
    unfold fillUserAgent
    by_cases hu : decoded.UserAgent = []
    · rw [if_pos hu]; exact ⟨rfl, rfl, rfl, rfl, rfl, rfl⟩
    · rw [if_neg hu]; exact ⟨rfl, rfl, rfl, rfl, rfl, rfl⟩
  obtain ⟨f1, f2, f3, f4, f5, f6⟩ := hfields
  refine ⟨decoded, (fillUserAgent decoded r.UserAgent).coerced, hd, hw, hua, ?_, ?_, ?_, ?_, ?_,
    ?_, ?_⟩
  · intro hv
    rw [hua]
    by_cases hu : decoded.UserAgent = []
    · simp only [if_pos hu]; exact toValidUTF8_valid _ hv
    · simp only [if_neg hu]
  · show toValidUTF8 (fillUserAgent decoded r.UserAgent).EventType = decoded.EventType
    rw [f1]; exact toValidUTF8_valid _ h1
  · show toValidUTF8 (fillUserAgent decoded r.UserAgent).Page = decoded.Page
    rw [f2]; exact toValidUTF8_valid _ h2
  · exact f3
  · show toValidUTF8 (fillUserAgent decoded r.UserAgent).SessionID = decoded.SessionID
    rw [f4]; exact toValidUTF8_valid _ h3
  · exact f5
  · exact f6

theorem published_differs_in_user_agent_only_witness :
    pageViewMessage ∈
        sends (handleAnalytics encodingJSON (ackingProducer Payload) 0 pageViewRequest).calls ∧
      validUTF8 pageViewRequest.UserAgent = true ∧
      ∃ decoded sent,
        encodingJSON.Decode pageViewRequest.Body = Except.ok decoded ∧
        encodingJSON.Unmarshal pageViewMessage.Value = Except.ok sent ∧
        decoded = pageViewEvent ∧
        sent.UserAgent = pageViewRequest.UserAgent ∧
        sent.EventType = decoded.EventType ∧
        sent.Page = decoded.Page ∧
        sent.Timestamp = decoded.Timestamp ∧
        sent.SessionID = decoded.SessionID ∧
        sent.ScreenWidth = decoded.ScreenWidth ∧
        sent.ScreenHeight = decoded.ScreenHeight :=
  have hin : pageViewMessage ∈
      sends (handleAnalytics encodingJSON (ackingProducer Payload) 0 pageViewRequest).calls :=
    List.mem_singleton.mpr rfl
  have hv : validUTF8 pageViewRequest.UserAgent = true := by decide
  match published_differs_in_user_agent_only (ackingProducer Payload) 0 pageViewRequest
      pageViewMessage hin with
  | ⟨decoded, sent, hd, hs, _, hua, h1, h2, h3, h4, h5, h6⟩ =>
    have hdec : decoded = pageViewEvent :=
      Except.ok.inj (hd.symm.trans (rfl : encodingJSON.Decode pageViewRequest.Body =
        Except.ok pageViewEvent))
    ⟨hin, hv, decoded, sent, hd, hs, hdec,
      by rw [hua hv, hdec]; rfl, h1, h2, h3, h4, h5, h6⟩

/-- C6 fails on a `User-Agent` header that is not valid UTF-8: the body gives no
`user_agent`, the header is the byte 0xFF, and the event on the wire of the one
message sent has U+FFFD as `user_agent`, not the header. -/
theorem raw_header_not_published_as_given :
    ∃ msg sent,
      sends (handleAnalytics encodingJSON (ackingProducer Payload) 0 rawByteRequest).calls
        = [msg] ∧
      encodingJSON.Decode rawByteRequest.Body = Except.ok pageViewEvent ∧
      pageViewEvent.UserAgent = [] ∧
      encodingJSON.Unmarshal msg.Value = Except.ok sent ∧
      sent.UserAgent = replacementChar ∧
      sent.UserAgent ≠ rawByteRequest.UserAgent :=
  ⟨_, _, rfl, rfl, rfl, rfl, rfl, by decide⟩

/-- C2 (as the code has it): the handler publishes `event_type`, `page` and
`session_id` as decoded, without checking them: in the event it marshals and in
the event on the wire of the message it sends, each of the three equals the
field decoded from the body, so it is empty exactly when the decoded one is. -/
theorem published_identity_fields_as_decoded {σ : Type} (P : SyncProducer σ Payload) (s : σ)
    (r : Request Payload) (msg : ProducerMessage Payload)
    (h : msg ∈ sends (handleAnalytics encodingJSON P s r).calls) :
    ∃ decoded published sent,
      encodingJSON.Decode r.Body = Except.ok decoded ∧
      marshalled (handleAnalytics encodingJSON P s r).calls = [published] ∧
      encodingJSON.Marshal published = Except.ok msg.Value ∧
      encodingJSON.Unmarshal msg.Value = Except.ok sent ∧
      published.EventType = decoded.EventType ∧
      published.Page = decoded.Page ∧
      published.SessionID = decoded.SessionID ∧
      sent.EventType = decoded.EventType ∧
      sent.Page = decoded.Page ∧
      sent.SessionID = decoded.SessionID ∧
      (sent.EventType = [] ↔ decoded.EventType = []) ∧
      (sent.Page = [] ↔ decoded.Page = []) ∧
      (sent.SessionID = [] ↔ decoded.SessionID = []) := by
  obtain ⟨decoded, hd, ⟨h1, h2, h3, _⟩, hc, hm, hw⟩ := published_wire P s r msg h
  have hfields : (fillUserAgent decoded r.UserAgent).EventType = decoded.EventType ∧
      (fillUserAgent decoded r.UserAgent).Page = decoded.Page ∧
      (fillUserAgent decoded r.UserAgent).SessionID = decoded.SessionID := by
    unfold fillUserAgent
    by_cases hu : decoded.UserAgent = []
    · rw [if_pos hu]; exact ⟨rfl, rfl, rfl⟩
    · rw [if_neg hu]; exact ⟨rfl, rfl, rfl⟩
  obtain ⟨f1, f2, f3⟩ := hfields
  have s1 : (fillUserAgent decoded r.UserAgent).coerced.EventType = decoded.EventType := by
    show toValidUTF8 (fillUserAgent decoded r.UserAgent).EventType = decoded.EventType
    rw [f1]; exact toValidUTF8_valid _ h1
  have s2 : (fillUserAgent decoded r.UserAgent).coerced.Page = decoded.Page := by
    show toValidUTF8 (fillUserAgent decoded r.UserAgent).Page = decoded.Page
    rw [f2]; exact toValidUTF8_valid _ h2
  have s3 : (fillUserAgent decoded r.UserAgent).coerced.SessionID = decoded.SessionID := by
    show toValidUTF8 (fillUserAgent decoded r.UserAgent).SessionID = decoded.SessionID
    rw [f3]; exact toValidUTF8_valid _ h3
  exact ⟨decoded, fillUserAgent decoded r.UserAgent, (fillUserAgent decoded r.UserAgent).coerced,
    hd, hc, hm, hw, f1, f2, f3, s1, s2, s3, by rw [s1], by rw [s2], by rw [s3]⟩

theorem published_identity_fields_as_decoded_witness :
    pageViewMessage ∈
        sends (handleAnalytics encodingJSON (failingProducer Payload) 3 pageViewRequest).calls ∧
      ∃ decoded published sent,
        encodingJSON.Decode pageViewRequest.Body = Except.ok decoded ∧
        marshalled (handleAnalytics encodingJSON (failingProducer Payload) 3
          pageViewRequest).calls = [published] ∧
        encodingJSON.Marshal published = Except.ok pageViewMessage.Value ∧
        encodingJSON.Unmarshal pageViewMessage.Value = Except.ok sent ∧
        published.EventType = decoded.EventType ∧
        published.Page = decoded.Page ∧
        published.SessionID = decoded.SessionID ∧
        sent.EventType = decoded.EventType ∧
        sent.Page = decoded.Page ∧
        sent.SessionID = decoded.SessionID ∧
        (sent.EventType = [] ↔ decoded.EventType = []) ∧
        (sent.Page = [] ↔ decoded.Page = []) ∧
        (sent.SessionID = [] ↔ decoded.SessionID = []) :=
  have hin : pageViewMessage ∈
      sends (handleAnalytics encodingJSON (failingProducer Payload) 3 pageViewRequest).calls :=
    List.mem_singleton.mpr rfl
  ⟨hin, published_identity_fields_as_decoded (failingProducer Payload) 3 pageViewRequest
    pageViewMessage hin⟩

end PortfolioAnalytics
